import Mathlib

/-!
Shallow embedding of the DocSearcher front-end windowed highlight engine
(src/unnamed/part_000, second script, lines 606-1355).

Strings are modelled as Lean `String`s, or as `List Char` for the word
parser; JavaScript numbers that carry geometry are modelled as `Rat`.
The JavaScript whitespace class is abstracted to `Char.isWhitespace`.
-/

/-- One OCR token: text plus fractional bounding box, one entry of the
`tokens` array served by the page endpoint. -/
structure Tok where
  text : String
  x0 : Rat
  y0 : Rat
  x1 : Rat
  y1 : Rat
deriving DecidableEq, Repr

/-- One cached page: the `pageCache[p]` record of lines 1189-1197, with the
DOM references factored out (the overlay box list is kept separately). -/
structure PageData where
  tokens : List Tok
  text : String
deriving DecidableEq, Repr

/-- One highlight box: the style of lines 1261-1266, numbers standing for
the percentage values written into `left/top/width/height`. -/
structure HlBox where
  left : Rat
  top : Rat
  width : Rat
  height : Rat
deriving DecidableEq, Repr

/-! ## Word parsing (`parseWords`, lines 684-690) -/

/-- Separator characters of the regex `[,\s;]` in `parseWords` (line 686). -/
def isSepChar (c : Char) : Bool := c = ',' || c = ';' || c.isWhitespace

/-- JS `String.prototype.trim` (line 685): strip leading and trailing
whitespace. -/
def jsTrim (l : List Char) : List Char :=
  ((l.dropWhile Char.isWhitespace).reverse.dropWhile Char.isWhitespace).reverse

theorem dropWhile_length_le (p : α → Bool) (l : List α) :
    (l.dropWhile p).length ≤ l.length := by
  induction l with
  | nil => simp
  | cons x xs ih =>
    by_cases h : p x
    · simpa [List.dropWhile_cons, h] using Nat.le_succ_of_le ih
    · simp [List.dropWhile_cons, h]

/-- Recursion engine of `splitSepRuns`, structurally recursive on a fuel
argument so that the kernel can evaluate it (the fuel never runs out when
it starts at the length of the list, see `splitGo_eq_of_le`). -/
def splitGo : Nat → List Char → List (List Char)
  | _, [] => [[]]
  | 0, _ :: _ => [[]]
  | fuel + 1, c :: rest =>
    if isSepChar c then [] :: splitGo fuel (rest.dropWhile isSepChar)
    else
      match splitGo fuel rest with
      | [] => [[c]]
      | w :: ws => (c :: w) :: ws

/-- JS `split(/[,\s;]+/)` (line 686): the fragments between maximal
separator runs; a leading or trailing run contributes an empty fragment,
and the empty string yields one empty fragment. -/
def splitSepRuns (l : List Char) : List (List Char) := splitGo l.length l

theorem splitGo_eq_of_le :
    ∀ (n : Nat) (l : List Char), l.length ≤ n → splitGo n l = splitGo l.length l := by
  intro n
  induction n using Nat.strong_induction_on with
  | _ n ih =>
    intro l hl
    cases l with
    | nil => cases n <;> rfl
    | cons c rest =>
      cases n with
      | zero => simp at hl
      | succ m =>
        have hrm : rest.length ≤ m := by simpa using hl
        show splitGo (m + 1) (c :: rest) = splitGo (rest.length + 1) (c :: rest)
        rw [splitGo, splitGo]
        have hdrop : (rest.dropWhile isSepChar).length ≤ rest.length :=
          dropWhile_length_le _ _
        have h1 : splitGo m (rest.dropWhile isSepChar)
            = splitGo (rest.dropWhile isSepChar).length (rest.dropWhile isSepChar) :=
          ih m (Nat.lt_succ_self m) _ (le_trans hdrop hrm)
        have h2 : splitGo rest.length (rest.dropWhile isSepChar)
            = splitGo (rest.dropWhile isSepChar).length (rest.dropWhile isSepChar) :=
          ih rest.length (Nat.lt_succ_of_le hrm) _ hdrop
        have h3 : splitGo m rest = splitGo rest.length rest :=
          ih m (Nat.lt_succ_self m) _ hrm
        rw [h1, h2, h3]

theorem splitSepRuns_cons (c : Char) (rest : List Char) :
    splitSepRuns (c :: rest) =
      if isSepChar c then [] :: splitSepRuns (rest.dropWhile isSepChar)
      else
        match splitSepRuns rest with
        | [] => [[c]]
        | w :: ws => (c :: w) :: ws := by
  show splitGo (rest.length + 1) (c :: rest) = _
  rw [splitGo]
  rw [splitGo_eq_of_le rest.length (rest.dropWhile isSepChar) (dropWhile_length_le _ _)]
  rfl

/-- JS `Array.prototype.indexOf` restricted to present elements: index of
the first occurrence (line 689 only compares it against the position of an
element of the same array). -/
def jsIndexOf [DecidableEq α] (v : α) : List α → Nat
  | [] => 0
  | x :: xs => if x = v then 0 else jsIndexOf v xs + 1

/-- Elements paired with their positions, starting at `n`. -/
def zipIndexFrom (n : Nat) : List α → List (Nat × α)
  | [] => []
  | x :: xs => (n, x) :: zipIndexFrom (n + 1) xs

/-- JS `a.filter((v,i,a) => a.indexOf(v) === i)` (line 689): keep each
element only at the position of its first occurrence. -/
def keepFirstOccurrences [DecidableEq α] (a : List α) : List α :=
  ((zipIndexFrom 0 a).filter (fun p => jsIndexOf p.2 a = p.1)).map Prod.snd

/-- `parseWords` (lines 684-690): trim, split on separator runs, drop empty
fragments, lowercase, and keep only first occurrences. -/
def parseWords (raw : List Char) : List (List Char) :=
  keepFirstOccurrences
    (((splitSepRuns (jsTrim raw)).filter (fun w => !w.isEmpty)).map
      (fun w => w.map Char.toLower))

/-- Modelled from the spec side of C9: duplicates removed keeping the first
occurrence, in input order. -/
def dedupFirst [DecidableEq α] : List α → List α
  | [] => []
  | x :: xs => x :: dedupFirst (xs.filter (fun v => v ≠ x))
termination_by l => l.length
decreasing_by
  exact Nat.lt_succ_of_le (List.length_filter_le _ _)

/-- Modelled from the spec side of C9: the maximal runs of non-separator
characters of the input, in order. -/
def nonSepRuns : List Char → List (List Char)
  | [] => []
  | c :: rest =>
    if isSepChar c then nonSepRuns rest
    else (c :: rest.takeWhile (fun d => !isSepChar d)) ::
         nonSepRuns (rest.dropWhile (fun d => !isSepChar d))
termination_by l => l.length
decreasing_by
  · exact Nat.lt_succ_self _
  · exact Nat.lt_succ_of_le (dropWhile_length_le _ _)

/-! ## Highlight painting (`highlightPageMatches`, lines 1250-1271) -/

/-- The highlight box built for one token (lines 1260-1266): percentage
placement computed from the fractional bounding box. -/
def boxOfTok (t : Tok) : HlBox :=
  ⟨t.x0 * 100, t.y0 * 100, (t.x1 - t.x0) * 100, (t.y1 - t.y0) * 100⟩

/-- JS `toLowerCase` on a string, per character. -/
def lowerStr (s : String) : String := String.mk (s.data.map Char.toLower)

/-- The fragment of boxes accumulated by the token loop of
`highlightPageMatches` (lines 1256-1269). -/
def hlFragment (targets : List String) (tokens : List Tok) : List HlBox :=
  tokens.foldl
    (fun frag t => if lowerStr t.text ∈ targets then frag ++ [boxOfTok t] else frag) []

/-- `highlightPageMatches` (lines 1250-1271) acting on the overlay box list
of one page: produces the new box list (clearing first unless appending). -/
def highlightPageMatches (cache : Option PageData) (currentWords : List String)
    (append : Bool) (existing : List HlBox) : List HlBox :=
  match cache with
  | none => existing
  | some c =>
    if currentWords.isEmpty then existing
    else (if append then existing else []) ++ hlFragment currentWords c.tokens

/-! ## Render-target order (`insertPageInOrder` / `dedupePageDom`) -/

/-- `insertPageInOrder` (lines 1224-1239) on the list of page numbers of
the render targets in document order: insert before the first larger page,
else append. -/
def insertPageInOrder (num : Nat) : List Nat → List Nat
  | [] => [num]
  | p :: rest => if num < p then num :: p :: rest else p :: insertPageInOrder num rest

/-- Kernel of `dedupePageDom`: remove every occurrence of `num` that has a
later occurrence, keeping the last. -/
def dropEarlierDuplicates (num : Nat) : List Nat → List Nat
  | [] => []
  | x :: xs =>
    if x = num ∧ num ∈ xs then dropEarlierDuplicates num xs
    else x :: dropEarlierDuplicates num xs

/-- `dedupePageDom` (lines 1147-1151): nothing to do with at most one node,
else drop all but the last node for `num`. -/
def dedupePageDom (num : Nat) (l : List Nat) : List Nat :=
  if l.count num ≤ 1 then l else dropEarlierDuplicates num l

/-! ## The engine state

One state record for the module-level mutable state of the script
(lines 639-678).  Concurrency is modelled at suspension-point granularity:
an event list interleaves synchronous runs-to-suspension of the handlers
with the settlings of the in-flight loads, matching the single-threaded
cooperative model of the host platform.  `bufferedHighlightMode` is the
constant `true` (line 659, never reassigned in this script). -/

/-- The continuation a caller of `ensurePageLoaded` runs when the load
settles: `plain` for `safeEnsurePage` callers that do nothing afterwards,
`activate` for the two `updateHighlightWindow` branches (lines 1107-1112
and 1124-1127) that paint and record the page afterwards. -/
inductive Waiter where
  | plain
  | activate
deriving DecidableEq, Repr

/-- Progress of the `ensurePageLoaded` body for a live ticket: before the
fetch resolves, or between the cache fill and the image settling. -/
inductive Phase where
  | fetching
  | imageLoading
deriving DecidableEq, Repr

/-- Progress of a pending result-row click handler (lines 993-1005):
before `safeEnsurePage(r.page)` resolves, before `preloadJumpWindow`
resolves, or inside `selectResultIndex` waiting on its own load. -/
inductive JStage where
  | awaitTarget
  | awaitPreload
  | selecting (awaited : Option Nat)
deriving DecidableEq, Repr

/-- One pending result-row click handler with its captured jump token
(line 994). -/
structure JumpTask where
  token : Nat
  idx : Nat
  page : Nat
  stage : JStage
deriving DecidableEq, Repr

/-- The module-level state.  `fetchLog` records every network fetch
issued, `scrollLog` every `scrollPageIntoView`, `errorLog` every status
report of a failed page load, and `obs` the record each waiter observes
when a ticket settles. -/
structure AppState where
  currentDoc : Option Nat
  currentWords : List String
  searchResults : List Nat
  currentSelectedPage : Option Nat
  pageCache : Nat → Option PageData
  matchPageSet : List Nat
  highlightedPages : List Nat
  currentCenterPage : Option Nat
  scrollDirection : Int
  programmaticScrollInProgress : Bool
  pageObserver : Bool
  currentJumpToken : Nat
  currentScale : Rat
  inflight : Nat → Option Phase
  waiters : Nat → List Waiter
  tasks : List JumpTask
  domPages : List Nat
  overlays : Nat → List HlBox
  fetchLog : List Nat
  scrollLog : List Nat
  errorLog : List Nat
  obs : List (Nat × Option PageData)

/-- Pointwise update of a map. -/
def updf {β : Type} (f : Nat → β) (k : Nat) (v : β) : Nat → β :=
  fun q => if q = k then v else f q

/-- JS `Set.prototype.add`: append if absent (JS sets preserve insertion
order). -/
def addPageUnique (p : Nat) (l : List Nat) : List Nat :=
  if p ∈ l then l else l ++ [p]

/-- The `highlightPageMatches(p, append:false); highlightedPages.add(p)`
pair that follows a load in the window code paths. -/
def paintAdd (p : Nat) (s : AppState) : AppState :=
  { s with
    overlays := updf s.overlays p
      (highlightPageMatches (s.pageCache p) s.currentWords false (s.overlays p)),
    highlightedPages := addPageUnique p s.highlightedPages }

/-- Resumption of one waiter when the ticket for `p` settles with `ok`.
`safeEnsurePage` (lines 889-896) swallows the failure after reporting it,
so the `activate` continuation paints and records the page in both cases
(the paint is a no-op without a cache record). -/
def runWaiter (ok : Bool) (p : Nat) (s : AppState) (w : Waiter) : AppState :=
  match w with
  | Waiter.plain => if ok then s else { s with errorLog := s.errorLog ++ [p] }
  | Waiter.activate =>
    if ok then paintAdd p s
    else paintAdd p { s with errorLog := s.errorLog ++ [p] }

/-- The synchronous head of `ensurePageLoaded` (lines 1153-1158): a cache
hit returns at once (the caller's continuation runs), a live ticket is
joined, a missing document resolves the body immediately, and otherwise a
ticket is created and the network fetch issued. -/
def ensureStart (w : Waiter) (p : Nat) (s : AppState) : AppState :=
  if (s.pageCache p).isSome then runWaiter true p s w
  else if (s.inflight p).isSome then
    { s with waiters := updf s.waiters p (s.waiters p ++ [w]) }
  else if s.currentDoc = none then runWaiter true p s w
  else
    { s with inflight := updf s.inflight p (some Phase.fetching),
             waiters := updf s.waiters p [w],
             fetchLog := s.fetchLog ++ [p] }

/-- `HIGHLIGHT_BUFFER_BEFORE = HIGHLIGHT_BUFFER_AFTER = 2`
(lines 656-657): clamped window bounds of lines 1097-1098. -/
def windowStart (c : Nat) : Nat := max 1 (c - 2)

def windowEnd (pages c : Nat) : Nat := min pages (c + 2)

def windowRange (pages c : Nat) : List Nat :=
  List.range' (windowStart c) (windowEnd pages c + 1 - windowStart c)

/-- Lines 1100-1105: clear and un-highlight every highlighted page that
fell out of the window (iterating over a snapshot, as `Array.from` does). -/
def clearOutOfWindow (st en : Nat) (s : AppState) : AppState :=
  s.highlightedPages.foldl
    (fun acc p =>
      if p < st ∨ en < p then
        { acc with overlays := updf acc.overlays p [],
                   highlightedPages := acc.highlightedPages.erase p }
      else acc)
    s

/-- One iteration of the window loop (lines 1115-1129). -/
def windowLoopBody (s : AppState) (p : Nat) : AppState :=
  if p ∈ s.matchPageSet ∧ p ∉ s.highlightedPages then
    if (s.pageCache p).isSome then paintAdd p s
    else ensureStart Waiter.activate p s
  else if (s.pageCache p).isNone ∧ p ∈ s.matchPageSet then
    ensureStart Waiter.activate p s
  else s

/-- The page range of the prefetch loop (lines 1131-1141) with
`PREFETCH_EXTRA_AHEAD = 1`: one page beyond the window edge in the scroll
direction, when in bounds. -/
def prefetchRange (pages st en : Nat) (dir : Int) : List Nat :=
  if 0 < dir then (if en + 1 ≤ pages then [en + 1] else [])
  else (if 1 ≤ st - 1 then [st - 1] else [])

/-- One iteration of the prefetch loop (lines 1136-1140). -/
def prefetchBody (s : AppState) (p : Nat) : AppState :=
  if p ∈ s.matchPageSet ∧ (s.pageCache p).isNone then
    ensureStart Waiter.plain p s
  else s

/-- `updateHighlightWindow` (lines 1093-1144), up to the suspension points
of the loads it starts (none of the folds touches `scrollDirection`). -/
def updateHighlightWindow (s : AppState) : AppState :=
  match s.currentDoc, s.currentCenterPage with
  | some pages, some c =>
    let st := windowStart c
    let en := windowEnd pages c
    let s2 := (windowRange pages c).foldl windowLoopBody (clearOutOfWindow st en s)
    if s.scrollDirection ≠ 0 then
      (prefetchRange pages st en s.scrollDirection).foldl prefetchBody s2
    else s2
  | _, _ => s

/-- `setCenterPage` (lines 1084-1091). -/
def setCenterPage (p : Nat) (fromClick : Bool) (s : AppState) : AppState :=
  let s1 := updateHighlightWindow { s with currentCenterPage := some p }
  if fromClick then { s1 with programmaticScrollInProgress := true } else s1

/-- `handlePageIntersections` (lines 1063-1082) reduced to its chosen best
page: possibly update the scroll direction and recenter. -/
def observeCenter (p : Nat) (s : AppState) : AppState :=
  if s.programmaticScrollInProgress then s
  else if s.currentCenterPage = some p then s
  else
    let s1 := match s.currentCenterPage with
      | none => s
      | some c => { s with scrollDirection := if c < p then 1 else -1 }
    setCenterPage p false s1

/-- `preloadJumpWindow` (lines 875-887), up to the suspension points of
the loads it starts. -/
def preloadJumpWindow (center pages : Nat) (s : AppState) : AppState :=
  (windowRange pages center).foldl
    (fun acc p =>
      if (acc.pageCache p).isNone then ensureStart Waiter.plain p acc else acc)
    s

/-- The click handler attached to result row `idx` (lines 993-1005), up to
its first suspension point: capture a fresh jump token, start the target
load, and suspend. -/
def resultClick (idx : Nat) (s : AppState) : AppState :=
  match s.searchResults[idx]? with
  | none => s
  | some pg =>
    let tk := s.currentJumpToken + 1
    let s1 := ensureStart Waiter.plain pg { s with currentJumpToken := tk }
    { s1 with tasks := s1.tasks ++ [⟨tk, idx, pg, JStage.awaitTarget⟩] }

/-- Whether all loads of the jump window have settled (`Promise.all` of
`preloadJumpWindow` resolved). -/
def windowSettled (pages c : Nat) (s : AppState) : Bool :=
  (windowRange pages c).all (fun p => (s.inflight p).isNone)

/-- One resumption step of a pending result-row click handler: the
continuation structure of lines 996-1004, with `selectResultIndex`
(lines 1010-1030) inlined at its call with
`preserveHighlights:true, skipScroll:true`.  The captured token is
compared to the live counter exactly once, at line 999. -/
def taskStep (k : Nat) (s : AppState) : AppState :=
  match s.tasks[k]? with
  | none => s
  | some t =>
    match t.stage with
    | JStage.awaitTarget =>
      if (s.inflight t.page).isSome then s
      else
        match s.currentDoc with
        | none => { s with tasks := s.tasks.eraseIdx k }
        | some pages =>
          let s1 := preloadJumpWindow t.page pages s
          { s1 with tasks := s1.tasks.set k { t with stage := JStage.awaitPreload } }
    | JStage.awaitPreload =>
      match s.currentDoc with
      | none => { s with tasks := s.tasks.eraseIdx k }
      | some pages =>
        if windowSettled pages t.page s then
          if t.token ≠ s.currentJumpToken then { s with tasks := s.tasks.eraseIdx k }
          else
            match s.searchResults[t.idx]? with
            | some rp =>
              let s1 := ensureStart Waiter.plain rp { s with currentSelectedPage := some rp }
              { s1 with tasks := s1.tasks.set k { t with stage := JStage.selecting (some rp) } }
            | none => { s with tasks := s.tasks.set k { t with stage := JStage.selecting none } }
        else s
    | JStage.selecting aw =>
      let ready := match aw with
        | none => true
        | some q => (s.inflight q).isNone
      if ready then
        let s1 := setCenterPage t.page true { s with tasks := s.tasks.eraseIdx k }
        { s1 with scrollLog := s1.scrollLog ++ [t.page] }
      else s

/-- The page record built after a successful fetch and JSON decode
(lines 1163-1197): the render target is inserted in page order and
deduplicated, the fresh overlay is empty, the cache is filled, and the
body then suspends on the image load. -/
def applyFetchOk (p : Nat) (d : PageData) (s : AppState) : AppState :=
  { s with domPages := dedupePageDom p (insertPageInOrder p s.domPages),
           overlays := updf s.overlays p [],
           pageCache := updf s.pageCache p (some d),
           inflight := updf s.inflight p (some Phase.imageLoading) }

/-- The unclamped window membership test of lines 1204-1207. -/
def inRawWindow (center : Option Nat) (p : Nat) : Bool :=
  match center with
  | none => false
  | some c => decide (c - 2 ≤ p) && decide (p ≤ c + 2)

/-- Completion of the `ensurePageLoaded` body once the image settles
(lines 1200-1214), then the ticket removal of the creator's `finally`
(lines 1217-1221) and the resumption of every waiting caller, each of
which observes the cache record. -/
def applyImageOk (p : Nat) (s : AppState) : AppState :=
  let s1 := { s with pageObserver := true }
  let s2 :=
    if p ∈ s1.matchPageSet ∧ inRawWindow s1.currentCenterPage p then paintAdd p s1
    else s1
  let ws := s2.waiters p
  let s3 := { s2 with inflight := updf s2.inflight p none,
                      waiters := updf s2.waiters p [],
                      obs := s2.obs ++ ws.map (fun _ => (p, s2.pageCache p)) }
  ws.foldl (fun acc w => runWaiter true p acc w) s3

/-- Failure of the fetch or JSON decode (lines 1159-1161): the body throws
before any DOM or cache mutation, the `finally` still removes the ticket,
and every waiting caller resumes through its `safeEnsurePage` catch. -/
def applyFetchErr (p : Nat) (s : AppState) : AppState :=
  let ws := s.waiters p
  let s1 := { s with inflight := updf s.inflight p none,
                     waiters := updf s.waiters p [],
                     obs := s.obs ++ ws.map (fun _ => (p, s.pageCache p)) }
  ws.foldl (fun acc w => runWaiter false p acc w) s1

/-- `resetAll` (lines 1326-1354): wholesale reset of the session state.
`disableZoom` (lines 1281-1287) resets the scale; the final loop over
`pageLoadPromises` (lines 1351-1353) deliberately removes nothing. -/
def resetAll (s : AppState) : AppState :=
  { s with currentDoc := none,
           currentWords := [],
           searchResults := [],
           currentSelectedPage := none,
           pageCache := fun _ => none,
           matchPageSet := [],
           highlightedPages := [],
           currentCenterPage := none,
           domPages := [],
           overlays := fun _ => [],
           currentScale := 1,
           pageObserver := false }

/-- The events of the interleaving semantics: handler entries run to their
first suspension point, and the `fetchOk/fetchErr/imageOk` events settle
the corresponding suspension of a live ticket. -/
inductive Ev where
  | callEnsure (p : Nat)
  | fetchOk (p : Nat) (d : PageData)
  | fetchErr (p : Nat)
  | imageOk (p : Nat)
  | setCenterEv (p : Nat) (fromClick : Bool)
  | observeCenterEv (p : Nat)
  | resultClickEv (idx : Nat)
  | taskStepEv (k : Nat)
  | settleTimer
  | resetEv
deriving DecidableEq, Repr

/-- One atomic step between suspension points. -/
def step (s : AppState) : Ev → AppState
  | Ev.callEnsure p => ensureStart Waiter.plain p s
  | Ev.fetchOk p d =>
    if s.inflight p = some Phase.fetching then applyFetchOk p d s else s
  | Ev.fetchErr p =>
    if s.inflight p = some Phase.fetching then applyFetchErr p s else s
  | Ev.imageOk p =>
    if s.inflight p = some Phase.imageLoading then applyImageOk p s else s
  | Ev.setCenterEv p b => setCenterPage p b s
  | Ev.observeCenterEv p => observeCenter p s
  | Ev.resultClickEv i => resultClick i s
  | Ev.taskStepEv k => taskStep k s
  | Ev.settleTimer => { s with programmaticScrollInProgress := false }
  | Ev.resetEv => resetAll s

/-- Run an event interleaving. -/
def run (s : AppState) (evs : List Ev) : AppState := evs.foldl step s

/-! ## Generic helpers -/

theorem foldl_hom_inv {γ ι δ : Type _} (g : γ → δ) (f : γ → ι → γ) :
    ∀ (l : List ι) (s : γ), (∀ a x, g (f a x) = g a) → g (l.foldl f s) = g s := by
  intro l
  induction l with
  | nil => intro s _; rfl
  | cons x xs ih => intro s h; rw [List.foldl_cons, ih _ h, h]

theorem foldl_fixed {γ ι : Type _} (f : γ → ι → γ) :
    ∀ (l : List ι) (s : γ), (∀ x ∈ l, f s x = s) → l.foldl f s = s := by
  intro l
  induction l with
  | nil => intro s _; rfl
  | cons x xs ih =>
    intro s h
    rw [List.foldl_cons, h x (by simp), ih _ (fun y hy => h y (by simp [hy]))]

theorem foldl_chain_rel {γ ι : Type _} (R : γ → γ → Prop) (f : γ → ι → γ) :
    ∀ (l : List ι) (s : γ), (∀ a, R a a) → (∀ a b c, R a b → R b c → R a c) →
      (∀ a x, R a (f a x)) → R s (l.foldl f s) := by
  intro l
  induction l with
  | nil => intro s hrefl _ _; exact hrefl s
  | cons x xs ih =>
    intro s hrefl htrans hstep
    exact htrans _ _ _ (hstep s x) (ih (f s x) hrefl htrans hstep)

theorem updf_self {β : Type} (f : Nat → β) (k : Nat) (v : β) : updf f k v k = v := by
  simp [updf]

theorem updf_ne {β : Type} (f : Nat → β) (k : Nat) (v : β) (q : Nat) (h : q ≠ k) :
    updf f k v q = f q := by
  simp [updf, h]

/-! ## C8: highlight painting -/

theorem hlFragment_eq (targets : List String) (tokens : List Tok) :
    hlFragment targets tokens =
      (tokens.filter (fun t => decide (lowerStr t.text ∈ targets))).map boxOfTok := by
  have aux : ∀ (toks : List Tok) (init : List HlBox),
      toks.foldl
          (fun frag t => if lowerStr t.text ∈ targets then frag ++ [boxOfTok t] else frag)
          init
        = init ++ (toks.filter (fun t => decide (lowerStr t.text ∈ targets))).map boxOfTok := by
    intro toks
    induction toks with
    | nil => intro init; simp
    | cons t ts ih =>
      intro init
      by_cases h : lowerStr t.text ∈ targets
      · simp [List.foldl_cons, h, ih, List.filter_cons]
      · simp [List.foldl_cons, h, ih, List.filter_cons]
  simpa [hlFragment] using aux tokens []

/-- C8 (amended): painting a loaded page with a nonempty word set yields,
after the previous boxes are cleared (kept when appending), exactly one box
per token whose lowercase text is in the word set, in token order, with
percentage geometry taken from the fractional bounding box; with an empty
word set the painter returns without clearing (see the counterexample). -/
theorem highlight_paint_spec (c : PageData) (words : List String)
    (append : Bool) (existing : List HlBox) (hw : words ≠ []) :
    highlightPageMatches (some c) words append existing =
      (if append then existing else []) ++
        (c.tokens.filter (fun t => decide (lowerStr t.text ∈ words))).map
          (fun t => { left := t.x0 * 100, top := t.y0 * 100,
                      width := (t.x1 - t.x0) * 100,
                      height := (t.y1 - t.y0) * 100 }) := by
  have hne : words.isEmpty = false := by
    cases words with
    | nil => exact absurd rfl hw
    | cons a l => rfl
  show highlightPageMatches (some c) words append existing = _
  rw [highlightPageMatches]
  rw [hne]
  simp only [Bool.false_eq_true, if_false]
  rw [hlFragment_eq]
  rfl

/-- C8 counterexample to the claim as stated: painting a loaded page with
an empty current word set does not clear the previously painted boxes
(line 1252 returns before the clearing of line 1253). -/
theorem highlight_clear_counterexample :
    highlightPageMatches (some { tokens := [], text := "t" }) [] false
      [{ left := 0, top := 0, width := 1, height := 1 }] ≠ [] := by
  decide

/-- C8 witness: a concrete one-token page painted with word set `["w"]`. -/
theorem highlight_paint_spec_witness :
    (["w"] : List String) ≠ [] ∧
    highlightPageMatches (some { tokens := [⟨"w", 0, 0, 1, 1⟩], text := "t" }) ["w"] false
        [{ left := 5, top := 5, width := 5, height := 5 }] =
      [{ left := 0, top := 0, width := 100, height := 100 }] :=
  ⟨by decide, by
    rw [highlight_paint_spec { tokens := [⟨"w", 0, 0, 1, 1⟩], text := "t" } ["w"] false
      [{ left := 5, top := 5, width := 5, height := 5 }] (by decide)]
    have hmem : decide (lowerStr "w" ∈ (["w"] : List String)) = true := by decide
    simp only [List.filter, hmem, List.map, List.nil_append]
    norm_num⟩

/-! ## C4: render-target order lemmas -/

theorem mem_insertPageInOrder (num y : Nat) :
    ∀ l : List Nat, y ∈ insertPageInOrder num l ↔ y = num ∨ y ∈ l := by
  intro l
  induction l with
  | nil => simp [insertPageInOrder]
  | cons p rest ih =>
    by_cases h : num < p
    · simp [insertPageInOrder, if_pos h, List.mem_cons]
    · simp only [insertPageInOrder, if_neg h, List.mem_cons, ih]
      tauto

theorem count_insertPageInOrder (num : Nat) :
    ∀ l : List Nat, (insertPageInOrder num l).count num = l.count num + 1 := by
  intro l
  induction l with
  | nil => simp [insertPageInOrder]
  | cons p rest ih =>
    by_cases h : num < p
    · have hpn : ¬ p = num := by omega
      simp [insertPageInOrder, h, List.count_cons, hpn]
    · simp [insertPageInOrder, h, List.count_cons, ih]
      omega

theorem insertPageInOrder_pairwise (num : Nat) :
    ∀ l : List Nat, l.Pairwise (· < ·) → num ∉ l →
      (insertPageInOrder num l).Pairwise (· < ·) := by
  intro l
  induction l with
  | nil => intro _ _; simp [insertPageInOrder]
  | cons p rest ih =>
    intro hpw hnm
    rw [List.pairwise_cons] at hpw
    by_cases h : num < p
    · rw [insertPageInOrder, if_pos h, List.pairwise_cons]
      refine ⟨?_, List.pairwise_cons.mpr hpw⟩
      intro b hb
      rcases List.mem_cons.mp hb with hb | hb
      · omega
      · have := hpw.1 b hb; omega
    · have hne : num ≠ p := fun he => hnm (by simp [he])
      have hlt : p < num := by omega
      rw [insertPageInOrder, if_neg h, List.pairwise_cons]
      refine ⟨?_, ih hpw.2 (fun hm => hnm (by simp [hm]))⟩
      intro b hb
      rcases (mem_insertPageInOrder num b rest).mp hb with hb | hb
      · omega
      · exact hpw.1 b hb

theorem insertPageInOrder_front (num : Nat) :
    ∀ l : List Nat, (∀ x ∈ l, num < x) → insertPageInOrder num l = num :: l := by
  intro l hl
  cases l with
  | nil => rfl
  | cons p rest => rw [insertPageInOrder, if_pos (hl p (by simp))]

theorem dropEarlierDuplicates_of_not_mem (num : Nat) :
    ∀ l : List Nat, num ∉ l → dropEarlierDuplicates num l = l := by
  intro l
  induction l with
  | nil => intro _; rfl
  | cons x xs ih =>
    intro h
    have hx : ¬ (x = num ∧ num ∈ xs) := by
      rintro ⟨he, _⟩; exact h (by simp [he])
    rw [dropEarlierDuplicates, if_neg hx, ih (fun hm => h (by simp [hm]))]

theorem dropEarlier_insert_of_mem (num : Nat) :
    ∀ l : List Nat, l.Pairwise (· < ·) → num ∈ l →
      dropEarlierDuplicates num (insertPageInOrder num l) = l := by
  intro l
  induction l with
  | nil => intro _ h; simp at h
  | cons p rest ih =>
    intro hpw hmem
    rw [List.pairwise_cons] at hpw
    have hple : p ≤ num := by
      rcases List.mem_cons.mp hmem with h | h
      · omega
      · have := hpw.1 num h; omega
    by_cases hpn : p = num
    · subst hpn
      have hnr : p ∉ rest := fun hm => by have := hpw.1 p hm; omega
      rw [insertPageInOrder, if_neg (by omega)]
      rw [insertPageInOrder_front p rest (fun x hx => hpw.1 x hx)]
      rw [dropEarlierDuplicates,
        if_pos ⟨rfl, by simp⟩]
      rw [dropEarlierDuplicates, if_neg (by simp [hnr]),
        dropEarlierDuplicates_of_not_mem p rest hnr]
    · have hlt : p < num := by omega
      have hmr : num ∈ rest := by
        rcases List.mem_cons.mp hmem with h | h
        · omega
        · exact h
      rw [insertPageInOrder, if_neg (by omega)]
      rw [dropEarlierDuplicates,
        if_neg (by rintro ⟨he, _⟩; exact hpn he)]
      rw [ih hpw.2 hmr]

/-- Sorted-ness is preserved by one insert-then-dedupe round. -/
theorem dedupe_insert_pairwise (num : Nat) (l : List Nat)
    (hpw : l.Pairwise (· < ·)) :
    (dedupePageDom num (insertPageInOrder num l)).Pairwise (· < ·) := by
  by_cases hm : num ∈ l
  · have h2 : ¬ (insertPageInOrder num l).count num ≤ 1 := by
      rw [count_insertPageInOrder]
      have : 1 ≤ l.count num := List.count_pos_iff.mpr hm
      omega
    rw [dedupePageDom, if_neg h2, dropEarlier_insert_of_mem num l hpw hm]
    exact hpw
  · have h1 : (insertPageInOrder num l).count num ≤ 1 := by
      rw [count_insertPageInOrder]
      have : l.count num = 0 := List.count_eq_zero.mpr hm
      omega
    rw [dedupePageDom, if_pos h1]
    exact insertPageInOrder_pairwise num l hpw hm

/-- On a strictly sorted list, first-occurrence indices respect order. -/
theorem pairwise_jsIndexOf_lt :
    ∀ (l : List Nat), l.Pairwise (· < ·) → ∀ a b : Nat, a ∈ l → b ∈ l → a < b →
      jsIndexOf a l < jsIndexOf b l := by
  intro l
  induction l with
  | nil => intro _ a b ha; simp at ha
  | cons x xs ih =>
    intro hpw a b ha hb hab
    rw [List.pairwise_cons] at hpw
    by_cases hxa : x = a
    · have hxb : ¬ x = b := by omega
      have hbxs : b ∈ xs := by
        rcases List.mem_cons.mp hb with h | h
        · omega
        · exact h
      rw [jsIndexOf, if_pos hxa, jsIndexOf, if_neg hxb]
      omega
    · have haxs : a ∈ xs := by
        rcases List.mem_cons.mp ha with h | h
        · omega
        · exact h
      have hxb : ¬ x = b := by
        intro he
        subst he
        have := hpw.1 a haxs
        omega
      have hbxs : b ∈ xs := by
        rcases List.mem_cons.mp hb with h | h
        · omega
        · exact h
      rw [jsIndexOf, if_neg hxa, jsIndexOf, if_neg hxb]
      have := ih hpw.2 a b haxs hbxs hab
      omega

/-! ## Field preservation of the engine operations -/

theorem runWaiter_domPages (ok : Bool) (p : Nat) (s : AppState) (w : Waiter) :
    (runWaiter ok p s w).domPages = s.domPages := by
  cases w <;> rw [runWaiter] <;> split <;> rfl

theorem ensureStart_domPages (w : Waiter) (p : Nat) (s : AppState) :
    (ensureStart w p s).domPages = s.domPages := by
  rw [ensureStart]
  split
  · exact runWaiter_domPages ..
  · split
    · rfl
    · split
      · exact runWaiter_domPages ..
      · rfl

theorem clearOutOfWindow_domPages (st en : Nat) (s : AppState) :
    (clearOutOfWindow st en s).domPages = s.domPages := by
  refine foldl_hom_inv AppState.domPages _ _ _ ?_
  intro a x
  split <;> rfl

theorem windowLoopBody_domPages (s : AppState) (p : Nat) :
    (windowLoopBody s p).domPages = s.domPages := by
  rw [windowLoopBody]
  split
  · split
    · rfl
    · exact ensureStart_domPages ..
  · split
    · exact ensureStart_domPages ..
    · rfl

theorem prefetchBody_domPages (s : AppState) (p : Nat) :
    (prefetchBody s p).domPages = s.domPages := by
  rw [prefetchBody]
  split
  · exact ensureStart_domPages ..
  · rfl

theorem updateHighlightWindow_domPages (s : AppState) :
    (updateHighlightWindow s).domPages = s.domPages := by
  unfold updateHighlightWindow
  split
  · split
    · rw [foldl_hom_inv AppState.domPages _ _ _ (fun a x => prefetchBody_domPages a x),
        foldl_hom_inv AppState.domPages _ _ _ (fun a x => windowLoopBody_domPages a x),
        clearOutOfWindow_domPages]
    · rw [foldl_hom_inv AppState.domPages _ _ _ (fun a x => windowLoopBody_domPages a x),
        clearOutOfWindow_domPages]
  · rfl

theorem setCenterPage_domPages (p : Nat) (b : Bool) (s : AppState) :
    (setCenterPage p b s).domPages = s.domPages := by
  rw [setCenterPage]
  split
  · exact updateHighlightWindow_domPages _
  · exact updateHighlightWindow_domPages _

theorem observeCenter_domPages (p : Nat) (s : AppState) :
    (observeCenter p s).domPages = s.domPages := by
  rw [observeCenter]
  split
  · rfl
  · split
    · rfl
    · cases hc : s.currentCenterPage <;> simp only [hc] <;>
        exact setCenterPage_domPages ..

theorem preloadJumpWindow_domPages (c pages : Nat) (s : AppState) :
    (preloadJumpWindow c pages s).domPages = s.domPages := by
  refine foldl_hom_inv AppState.domPages _ _ _ ?_
  intro a x
  split
  · exact ensureStart_domPages ..
  · rfl

theorem resultClick_domPages (idx : Nat) (s : AppState) :
    (resultClick idx s).domPages = s.domPages := by
  rw [resultClick]
  cases hr : s.searchResults[idx]? with
  | none => rfl
  | some pg =>
    show (ensureStart _ _ _).domPages = _
    exact ensureStart_domPages ..

theorem taskStep_domPages (k : Nat) (s : AppState) :
    (taskStep k s).domPages = s.domPages := by
  unfold taskStep
  split
  · rfl
  · split
    · split
      · rfl
      · split
        · rfl
        · exact preloadJumpWindow_domPages ..
    · split
      · rfl
      · split
        · split
          · rfl
          · split
            · exact ensureStart_domPages ..
            · rfl
        · rfl
    · dsimp only
      split
      · exact setCenterPage_domPages ..
      · rfl

theorem applyImageOk_domPages (p : Nat) (s : AppState) :
    (applyImageOk p s).domPages = s.domPages := by
  simp only [applyImageOk]
  rw [foldl_hom_inv AppState.domPages _ _ _ (fun a x => runWaiter_domPages true p a x)]
  split <;> rfl

theorem applyFetchErr_domPages (p : Nat) (s : AppState) :
    (applyFetchErr p s).domPages = s.domPages := by
  simp only [applyFetchErr]
  rw [foldl_hom_inv AppState.domPages _ _ _ (fun a x => runWaiter_domPages false p a x)]

/-- C4: starting from a document whose render targets are in strictly
ascending page order, every insertion performed by `ensurePageLoaded`
(`insertPageInOrder` followed by `dedupePageDom`) keeps them strictly
ascending, so for all pages p1 < p2 present, p1's render target precedes
p2's; moreover no step of the engine, in any event order, breaks the
strict ascending order of the document. -/
theorem dom_order_invariant :
    (∀ (l : List Nat) (num : Nat), l.Pairwise (· < ·) →
      ((dedupePageDom num (insertPageInOrder num l)).Pairwise (· < ·) ∧
       ∀ a b : Nat, a ∈ dedupePageDom num (insertPageInOrder num l) →
         b ∈ dedupePageDom num (insertPageInOrder num l) → a < b →
         jsIndexOf a (dedupePageDom num (insertPageInOrder num l)) <
           jsIndexOf b (dedupePageDom num (insertPageInOrder num l)))) ∧
    (∀ (s : AppState) (e : Ev), s.domPages.Pairwise (· < ·) →
      ((step s e).domPages).Pairwise (· < ·)) := by
  constructor
  · intro l num h
    refine ⟨dedupe_insert_pairwise num l h, ?_⟩
    intro a b ha hb hab
    exact pairwise_jsIndexOf_lt _ (dedupe_insert_pairwise num l h) a b ha hb hab
  · intro s e h
    cases e with
    | callEnsure p =>
      show ((ensureStart Waiter.plain p s).domPages).Pairwise (· < ·)
      rw [ensureStart_domPages]; exact h
    | fetchOk p d =>
      show ((if s.inflight p = some Phase.fetching then applyFetchOk p d s
        else s).domPages).Pairwise (· < ·)
      split
      · exact dedupe_insert_pairwise p s.domPages h
      · exact h
    | fetchErr p =>
      show ((if s.inflight p = some Phase.fetching then applyFetchErr p s
        else s).domPages).Pairwise (· < ·)
      split
      · rw [applyFetchErr_domPages]; exact h
      · exact h
    | imageOk p =>
      show ((if s.inflight p = some Phase.imageLoading then applyImageOk p s
        else s).domPages).Pairwise (· < ·)
      split
      · rw [applyImageOk_domPages]; exact h
      · exact h
    | setCenterEv p b =>
      show ((setCenterPage p b s).domPages).Pairwise (· < ·)
      rw [setCenterPage_domPages]; exact h
    | observeCenterEv p =>
      show ((observeCenter p s).domPages).Pairwise (· < ·)
      rw [observeCenter_domPages]; exact h
    | resultClickEv i =>
      show ((resultClick i s).domPages).Pairwise (· < ·)
      rw [resultClick_domPages]; exact h
    | taskStepEv k =>
      show ((taskStep k s).domPages).Pairwise (· < ·)
      rw [taskStep_domPages]; exact h
    | settleTimer => exact h
    | resetEv => exact List.Pairwise.nil

/-- C4 witness: inserting page 2 into the ordered document `[1, 3]`. -/
theorem dom_order_invariant_witness :
    (([1, 3] : List Nat).Pairwise (· < ·)) ∧
    (dedupePageDom 2 (insertPageInOrder 2 [1, 3])).Pairwise (· < ·) ∧
    jsIndexOf 1 (dedupePageDom 2 (insertPageInOrder 2 [1, 3])) <
      jsIndexOf 3 (dedupePageDom 2 (insertPageInOrder 2 [1, 3])) :=
  ⟨by decide, (dom_order_invariant.1 [1, 3] 2 (by decide)).1,
    (dom_order_invariant.1 [1, 3] 2 (by decide)).2 1 3 (by decide) (by decide)
      (by decide)⟩

/-! ## C9: word parsing lemmas -/

theorem jsIndexOf_append_mem [DecidableEq α] (y : α) :
    ∀ (pre l : List α), y ∈ pre → jsIndexOf y (pre ++ l) < pre.length := by
  intro pre
  induction pre with
  | nil => intro l h; simp at h
  | cons x xs ih =>
    intro l h
    by_cases hx : x = y
    · rw [List.cons_append, jsIndexOf, if_pos hx]
      simp
    · have : y ∈ xs := by
        rcases List.mem_cons.mp h with h | h
        · exact absurd h.symm hx
        · exact h
      rw [List.cons_append, jsIndexOf, if_neg hx]
      have := ih l this
      simpa using this

theorem jsIndexOf_append_not_mem [DecidableEq α] (y : α) :
    ∀ (pre l : List α), y ∉ pre →
      jsIndexOf y (pre ++ l) = pre.length + jsIndexOf y l := by
  intro pre
  induction pre with
  | nil => intro l _; simp
  | cons x xs ih =>
    intro l h
    have hx : ¬ x = y := fun he => h (by simp [he])
    rw [List.cons_append, jsIndexOf, if_neg hx, ih l (fun hm => h (by simp [hm]))]
    simp
    omega

theorem dedupFirst_cons [DecidableEq α] (x : α) (xs : List α) :
    dedupFirst (x :: xs) = x :: dedupFirst (xs.filter (fun v => v ≠ x)) := by
  rw [dedupFirst]

theorem kf_prefix [DecidableEq α] :
    ∀ (ys pre : List α),
      ((zipIndexFrom pre.length ys).filter
          (fun p => jsIndexOf p.2 (pre ++ ys) = p.1)).map Prod.snd
        = dedupFirst (ys.filter (fun v => v ∉ pre)) := by
  intro ys
  induction ys with
  | nil => intro pre; simp [zipIndexFrom, dedupFirst]
  | cons y ys ih =>
    intro pre
    rw [zipIndexFrom, List.filter_cons]
    have happ : pre ++ y :: ys = (pre ++ [y]) ++ ys := by simp
    have hlen : pre.length + 1 = (pre ++ [y]).length := by simp
    by_cases hy : y ∈ pre
    · have hlt : jsIndexOf y (pre ++ y :: ys) < pre.length :=
        jsIndexOf_append_mem y pre (y :: ys) hy
      have hcond : (decide (jsIndexOf ((pre.length, y) : Nat × α).2 (pre ++ y :: ys)
          = ((pre.length, y) : Nat × α).1) : Bool) = false := by
        simp only [decide_eq_false_iff_not]
        intro hc
        omega
      rw [hcond, if_neg Bool.false_ne_true]
      have := ih (pre ++ [y])
      rw [← hlen, ← happ] at this
      rw [this]
      have hfc : ys.filter (fun v => v ∉ pre ++ [y]) = ys.filter (fun v => v ∉ pre) := by
        refine List.filter_congr ?_
        intro x _
        by_cases h1 : x = y <;> by_cases h2 : x ∈ pre <;>
          simp [h1, h2, List.mem_append, hy]
      rw [hfc, List.filter_cons]
      have : (decide (y ∉ pre) : Bool) = false := by simp [hy]
      rw [this, if_neg Bool.false_ne_true]
    · have heq : jsIndexOf y (pre ++ y :: ys) = pre.length := by
        rw [jsIndexOf_append_not_mem y pre (y :: ys) hy, jsIndexOf, if_pos rfl]
        omega
      have hcond : (decide (jsIndexOf ((pre.length, y) : Nat × α).2 (pre ++ y :: ys)
          = ((pre.length, y) : Nat × α).1) : Bool) = true := by
        simp only [decide_eq_true_eq]
        exact heq
      rw [hcond, if_pos rfl, List.map_cons]
      have := ih (pre ++ [y])
      rw [← hlen, ← happ] at this
      rw [this]
      rw [List.filter_cons]
      have hkeep : (decide (y ∉ pre) : Bool) = true := by simp [hy]
      rw [hkeep, if_pos rfl, dedupFirst_cons]
      have hff : (ys.filter (fun v => v ∉ pre)).filter (fun v => v ≠ y)
          = ys.filter (fun v => v ∉ pre ++ [y]) := by
        rw [List.filter_filter]
        refine List.filter_congr ?_
        intro x _
        by_cases h1 : x = y <;> by_cases h2 : x ∈ pre <;>
          simp [h1, h2, List.mem_append]
      rw [hff]

theorem keepFirst_eq_dedupFirst [DecidableEq α] (l : List α) :
    keepFirstOccurrences l = dedupFirst l := by
  have h := kf_prefix l ([] : List α)
  simp only [List.nil_append, List.length_nil] at h
  rw [keepFirstOccurrences, h]
  congr 1
  refine List.filter_eq_self.mpr ?_
  intro x _
  simp

theorem nonSepRuns_all_sep :
    ∀ t : List Char, (∀ c ∈ t, isSepChar c = true) → nonSepRuns t = [] := by
  intro t
  induction t with
  | nil => intro _; rw [nonSepRuns]
  | cons c rest ih =>
    intro h
    rw [nonSepRuns, if_pos (h c (by simp))]
    exact ih (fun d hd => h d (by simp [hd]))

theorem nonSepRuns_dropWhile_sep :
    ∀ l : List Char, nonSepRuns (l.dropWhile isSepChar) = nonSepRuns l := by
  intro l
  induction l with
  | nil => rfl
  | cons c rest ih =>
    by_cases h : isSepChar c
    · rw [List.dropWhile_cons_of_pos h, ih, nonSepRuns, if_pos h]
    · rw [List.dropWhile_cons_of_neg h]

theorem dropWhile_eq_self_of_takeWhile_nil (q : Char → Bool) :
    ∀ l : List Char, l.takeWhile q = [] → l.dropWhile q = l := by
  intro l h
  cases l with
  | nil => rfl
  | cons c rest =>
    by_cases hq : q c
    · rw [List.takeWhile_cons_of_pos hq] at h
      exact absurd h (by simp)
    · exact List.dropWhile_cons_of_neg hq

theorem filterSplit_of_head (l : List Char)
    (h : ∃ ws, splitSepRuns l = (l.takeWhile fun c => !isSepChar c) :: ws ∧
      ws.filter (fun w => !w.isEmpty) = nonSepRuns (l.dropWhile fun c => !isSepChar c)) :
    (splitSepRuns l).filter (fun w => !w.isEmpty) = nonSepRuns l := by
  obtain ⟨ws, h1, h2⟩ := h
  rw [h1, List.filter_cons]
  cases htw : l.takeWhile (fun c => !isSepChar c) with
  | nil =>
    simp only [List.isEmpty_nil, Bool.not_true, Bool.false_eq_true, if_false]
    rw [h2, dropWhile_eq_self_of_takeWhile_nil _ l htw]
  | cons a as =>
    simp only [List.isEmpty_cons, Bool.not_false, if_true]
    cases l with
    | nil => simp [List.takeWhile] at htw
    | cons c rest =>
      by_cases hsep : isSepChar c
      · rw [List.takeWhile_cons_of_neg (by simp [hsep])] at htw
        exact absurd htw (by simp)
      · rw [List.takeWhile_cons_of_pos (p := fun c => !isSepChar c) (by simp [hsep])] at htw
        rw [nonSepRuns, if_neg hsep]
        rw [h2, List.dropWhile_cons_of_pos (p := fun c => !isSepChar c) (by simp [hsep])]
        rw [← htw]

theorem split_head_struct :
    ∀ (n : Nat) (l : List Char), l.length ≤ n →
      ∃ ws, splitSepRuns l = (l.takeWhile fun c => !isSepChar c) :: ws ∧
        ws.filter (fun w => !w.isEmpty) = nonSepRuns (l.dropWhile fun c => !isSepChar c) := by
  intro n
  induction n with
  | zero =>
    intro l hl
    have : l = [] := List.length_eq_zero.mp (Nat.le_zero.mp hl)
    subst this
    exact ⟨[], by rfl, by simp [nonSepRuns]⟩
  | succ n ih =>
    intro l hl
    cases l with
    | nil => exact ⟨[], by rfl, by simp [nonSepRuns]⟩
    | cons c rest =>
      by_cases hsep : isSepChar c
      · rw [splitSepRuns_cons, if_pos hsep]
        refine ⟨splitSepRuns (rest.dropWhile isSepChar), ?_, ?_⟩
        · rw [List.takeWhile_cons_of_neg (by simp [hsep])]
        · have hm : (rest.dropWhile isSepChar).length ≤ n := by
            have h1 := dropWhile_length_le isSepChar rest
            have h2 : rest.length ≤ n := by simpa using hl
            omega
          have := filterSplit_of_head (rest.dropWhile isSepChar) (ih _ hm)
          rw [this, nonSepRuns_dropWhile_sep]
          rw [List.dropWhile_cons_of_neg (p := fun c => !isSepChar c) (by simp [hsep])]
          rw [nonSepRuns, if_pos hsep]
      · obtain ⟨ws, h1, h2⟩ := ih rest (by simpa using hl)
        rw [splitSepRuns_cons, if_neg hsep, h1]
        refine ⟨ws, ?_, ?_⟩
        · rw [List.takeWhile_cons_of_pos (p := fun c => !isSepChar c) (by simp [hsep])]
        · rw [h2, List.dropWhile_cons_of_pos (p := fun c => !isSepChar c) (by simp [hsep])]

theorem splitFilter (l : List Char) :
    (splitSepRuns l).filter (fun w => !w.isEmpty) = nonSepRuns l :=
  filterSplit_of_head l (split_head_struct l.length l le_rfl)

theorem takeWhile_eq_self_of_all (q : Char → Bool) :
    ∀ l : List Char, (∀ x ∈ l, q x = true) → l.takeWhile q = l := by
  intro l
  induction l with
  | nil => intro _; rfl
  | cons a b ihb =>
    intro h
    rw [List.takeWhile_cons_of_pos (h a (by simp)), ihb (fun x hx => h x (by simp [hx]))]

theorem dropWhile_eq_nil_of_all (q : Char → Bool) :
    ∀ l : List Char, (∀ x ∈ l, q x = true) → l.dropWhile q = [] := by
  intro l
  induction l with
  | nil => intro _; rfl
  | cons a b ihb =>
    intro h
    rw [List.dropWhile_cons_of_pos (h a (by simp)), ihb (fun x hx => h x (by simp [hx]))]

theorem takeWhile_dropWhile_append_of_ne (q : Char → Bool) :
    ∀ (l t : List Char), (∃ x ∈ l, q x = false) →
      (l ++ t).takeWhile q = l.takeWhile q ∧
      (l ++ t).dropWhile q = l.dropWhile q ++ t := by
  intro l
  induction l with
  | nil => intro t h; simp at h
  | cons x xs ih =>
    intro t h
    by_cases hq : q x
    · have hxs : ∃ y ∈ xs, q y = false := by
        obtain ⟨y, hy, hqy⟩ := h
        rcases List.mem_cons.mp hy with he | hm
        · subst he; rw [hq] at hqy; simp at hqy
        · exact ⟨y, hm, hqy⟩
      obtain ⟨h1, h2⟩ := ih t hxs
      constructor
      · rw [List.cons_append, List.takeWhile_cons_of_pos hq,
          List.takeWhile_cons_of_pos hq, h1]
      · rw [List.cons_append, List.dropWhile_cons_of_pos hq,
          List.dropWhile_cons_of_pos hq, h2]
    · constructor
      · rw [List.cons_append, List.takeWhile_cons_of_neg hq,
          List.takeWhile_cons_of_neg hq]
      · rw [List.cons_append, List.dropWhile_cons_of_neg hq,
          List.dropWhile_cons_of_neg hq, List.cons_append]

theorem nonSepRuns_append_sep :
    ∀ (n : Nat) (l : List Char), l.length ≤ n →
      ∀ t : List Char, (∀ c ∈ t, isSepChar c = true) →
        nonSepRuns (l ++ t) = nonSepRuns l := by
  intro n
  induction n with
  | zero =>
    intro l hl t ht
    have : l = [] := List.length_eq_zero.mp (Nat.le_zero.mp hl)
    subst this
    rw [List.nil_append, nonSepRuns_all_sep t ht, nonSepRuns]
  | succ n ih =>
    intro l hl t ht
    cases l with
    | nil => rw [List.nil_append, nonSepRuns_all_sep t ht, nonSepRuns]
    | cons c rest =>
      by_cases hsep : isSepChar c
      · rw [List.cons_append, nonSepRuns, if_pos hsep, nonSepRuns, if_pos hsep]
        exact ih rest (by simpa using hl) t ht
      · rw [List.cons_append, nonSepRuns, if_neg hsep, nonSepRuns, if_neg hsep]
        by_cases hall : ∀ x ∈ rest, (fun d => !isSepChar d) x = true
        · have htw : (rest ++ t).takeWhile (fun d => !isSepChar d)
              = rest ++ t.takeWhile (fun d => !isSepChar d) :=
            List.takeWhile_append_of_pos hall
          have htwt : t.takeWhile (fun d => !isSepChar d) = [] := by
            cases t with
            | nil => rfl
            | cons a b =>
              exact List.takeWhile_cons_of_neg (by simp [ht a (by simp)])
          have hdw : (rest ++ t).dropWhile (fun d => !isSepChar d)
              = t.dropWhile (fun d => !isSepChar d) :=
            List.dropWhile_append_of_pos hall
          have hdwt : t.dropWhile (fun d => !isSepChar d) = t := by
            cases t with
            | nil => rfl
            | cons a b =>
              exact List.dropWhile_cons_of_neg (by simp [ht a (by simp)])
          rw [htw, htwt, List.append_nil, hdw, hdwt]
          rw [nonSepRuns_all_sep t ht]
          have hrt : rest.takeWhile (fun d => !isSepChar d) = rest :=
            takeWhile_eq_self_of_all _ rest hall
          have hrd : rest.dropWhile (fun d => !isSepChar d) = [] :=
            dropWhile_eq_nil_of_all _ rest hall
          rw [hrt, hrd, nonSepRuns]
        · have hex : ∃ x ∈ rest, (fun d => !isSepChar d) x = false := by
            push_neg at hall
            obtain ⟨x, hx, hqx⟩ := hall
            exact ⟨x, hx, by simpa using hqx⟩
          obtain ⟨h1, h2⟩ := takeWhile_dropWhile_append_of_ne _ rest t hex
          rw [h1, h2]
          congr 1
          have hlen2 : (rest.dropWhile (fun d => !isSepChar d)).length ≤ n := by
            have := dropWhile_length_le (fun d => !isSepChar d) rest
            have h2 : rest.length ≤ n := by simpa using hl
            omega
          exact ih _ hlen2 t ht

theorem nonSepRuns_dropWhile_ws :
    ∀ l : List Char, nonSepRuns (l.dropWhile Char.isWhitespace) = nonSepRuns l := by
  intro l
  induction l with
  | nil => rfl
  | cons c rest ih =>
    by_cases h : Char.isWhitespace c
    · have hsep : isSepChar c = true := by simp [isSepChar, h]
      rw [List.dropWhile_cons_of_pos h, ih, nonSepRuns, if_pos hsep]
    · rw [List.dropWhile_cons_of_neg h]

theorem nonSepRuns_jsTrim (l : List Char) :
    nonSepRuns (jsTrim l) = nonSepRuns l := by
  rw [jsTrim]
  set u := l.dropWhile Char.isWhitespace with hu
  have hdecomp : u = ((u.reverse.dropWhile Char.isWhitespace).reverse)
      ++ ((u.reverse.takeWhile Char.isWhitespace).reverse) := by
    have h1 : u.reverse.takeWhile Char.isWhitespace
        ++ u.reverse.dropWhile Char.isWhitespace = u.reverse :=
      List.takeWhile_append_dropWhile Char.isWhitespace u.reverse
    have h2 := congrArg List.reverse h1
    rw [List.reverse_append, List.reverse_reverse] at h2
    exact h2.symm
  have hsuffix : ∀ c ∈ (u.reverse.takeWhile Char.isWhitespace).reverse,
      isSepChar c = true := by
    intro c hc
    rw [List.mem_reverse] at hc
    have := List.mem_takeWhile_imp hc
    simp [isSepChar, this]
  calc nonSepRuns (u.reverse.dropWhile Char.isWhitespace).reverse
      = nonSepRuns ((u.reverse.dropWhile Char.isWhitespace).reverse
          ++ (u.reverse.takeWhile Char.isWhitespace).reverse) :=
        (nonSepRuns_append_sep _ _ le_rfl _ hsuffix).symm
    _ = nonSepRuns u := by rw [← hdecomp]
    _ = nonSepRuns l := nonSepRuns_dropWhile_ws l

/-- C9: `parseWords` returns the maximal non-separator runs of the input,
lowercased, with duplicates removed keeping the first occurrence in input
order; an input of only separators yields the empty list. -/
theorem parseWords_spec :
    (∀ raw : List Char,
      parseWords raw =
        dedupFirst ((nonSepRuns raw).map (fun w => w.map Char.toLower))) ∧
    ∀ raw : List Char, (∀ c ∈ raw, isSepChar c = true) → parseWords raw = [] := by
  have main : ∀ raw : List Char,
      parseWords raw =
        dedupFirst ((nonSepRuns raw).map (fun w => w.map Char.toLower)) := by
    intro raw
    rw [parseWords, keepFirst_eq_dedupFirst, splitFilter, nonSepRuns_jsTrim]
  refine ⟨main, fun raw h => ?_⟩
  rw [main raw, nonSepRuns_all_sep raw h]
  rw [List.map_nil, dedupFirst]

/-- C9 witness: a concrete input with mixed separators, case, and a
duplicate, and a separators-only input. -/
theorem parseWords_spec_witness :
    parseWords (" Ab,ab  b;AB ".toList) =
      dedupFirst ((nonSepRuns (" Ab,ab  b;AB ".toList)).map
        (fun w => w.map Char.toLower)) ∧
    (∀ c ∈ (", ; ,".toList), isSepChar c = true) ∧
    parseWords (", ; ,".toList) = [] ∧
    parseWords (" Ab,ab  b;AB ".toList) = [['a', 'b'], ['b']] :=
  ⟨parseWords_spec.1 _, by decide, parseWords_spec.2 _ (by decide), by decide⟩

/-! ## Concrete document states for the scenario claims -/

/-- One page payload with a single matching token. -/
def dLoaded : PageData := { tokens := [⟨"w", 0, 0, 1, 1⟩], text := "t" }

/-- A 10-page document with match set `{2, 4, 9}` and word `"w"`, before
any page load. -/
def docState : AppState :=
  { currentDoc := some 10
    currentWords := ["w"]
    searchResults := [2, 4, 9]
    currentSelectedPage := none
    pageCache := fun _ => none
    matchPageSet := [2, 4, 9]
    highlightedPages := []
    currentCenterPage := none
    scrollDirection := 0
    programmaticScrollInProgress := false
    pageObserver := false
    currentJumpToken := 0
    currentScale := 1
    inflight := fun _ => none
    waiters := fun _ => []
    tasks := []
    domPages := []
    overlays := fun _ => []
    fetchLog := []
    scrollLog := []
    errorLog := []
    obs := [] }

/-- The same document with match set `{2}`. -/
def failState : AppState := { docState with matchPageSet := [2], searchResults := [2] }

/-- `setCenter(4)` with both window loads settling successfully. -/
def trScen1 : List Ev :=
  [Ev.setCenterEv 4 false, Ev.fetchOk 2 dLoaded, Ev.imageOk 2,
   Ev.fetchOk 4 dLoaded, Ev.imageOk 4]

/-- Continue with a viewport move to page 9 (setting ScrollDirection = +1)
and the load of page 9 settling. -/
def trScen2 : List Ev :=
  trScen1 ++ [Ev.observeCenterEv 9, Ev.fetchOk 9 dLoaded, Ev.imageOk 9]

/-- Center on page 10 first, then move to page 9
(setting ScrollDirection = -1). -/
def trScen3 : List Ev :=
  [Ev.setCenterEv 10 false, Ev.fetchOk 9 dLoaded, Ev.imageOk 9,
   Ev.observeCenterEv 9]

/-- C1: the window invariant fails on the code.  With match set `{2}` and
`setCenter(2)`, a failing load of page 2 still ends with
`highlightedPages.add(2)` (the `activatePage` continuation of lines
1107-1112 runs after `safeEnsurePage` swallowed the error), so page 2 is
in HighlightedPages with no PageRecord. -/
theorem window_invariant_failure :
    2 ∈ (run failState [Ev.setCenterEv 2 false, Ev.fetchErr 2]).highlightedPages ∧
    (run failState [Ev.setCenterEv 2 false, Ev.fetchErr 2]).pageCache 2 = none ∧
    2 ∈ (run failState [Ev.setCenterEv 2 false, Ev.fetchErr 2]).errorLog := by
  decide

/-- C6 counterexample to the prefetch part of the claim as stated: in the
scenario, after `setCenter(9)` with ScrollDirection = +1 page 10 is
neither fetched nor cached (the beyond-window page 11 is out of bounds,
and 10 is not in MatchSet), and with ScrollDirection = -1 page 6 is
neither fetched nor cached (6 is not in MatchSet). -/
theorem scenario_prefetch_counterexample :
    (run docState trScen2).scrollDirection = 1 ∧
    (run docState trScen2).pageCache 10 = none ∧
    10 ∉ (run docState trScen2).fetchLog ∧
    (run docState trScen3).scrollDirection = -1 ∧
    (run docState trScen3).pageCache 6 = none ∧
    6 ∉ (run docState trScen3).fetchLog := by
  decide

/-- C6 (amended): in the 10-page scenario with MatchSet `{2,4,9}`,
`setCenter(4)` yields window `[2,6]`, loads and highlights exactly pages 2
and 4, and leaves page 9 unloaded; a subsequent `setCenter(9)` yields
window `[7,10]`, clears the highlights of pages 2 and 4, loads and paints
page 9; no prefetch occurs in either scroll direction, because prefetch
only loads MatchSet pages one page beyond the window edge: with
ScrollDirection = +1 that page is 11 > totalPages, and with
ScrollDirection = -1 it is 6, which is not in MatchSet. -/
theorem scenario_spec :
    (run docState trScen1).highlightedPages = [2, 4] ∧
    (run docState trScen1).fetchLog = [2, 4] ∧
    (run docState trScen1).pageCache 9 = none ∧
    ((run docState trScen1).overlays 2).length = 1 ∧
    ((run docState trScen1).overlays 4).length = 1 ∧
    (run docState trScen2).highlightedPages = [9] ∧
    (run docState trScen2).overlays 2 = [] ∧
    (run docState trScen2).overlays 4 = [] ∧
    ((run docState trScen2).overlays 9).length = 1 ∧
    (run docState trScen2).pageCache 9 = some dLoaded ∧
    (run docState trScen2).fetchLog = [2, 4, 9] ∧
    (run docState trScen3).fetchLog = [9] := by
  decide

/-- C5 counterexample to the claim as stated: when the load of a window
match page failed during the first `setCenter`, the page sits in
`highlightedPages` without a cache record, and the second identical
`setCenter` re-issues a network load for it (the `.then` branch of lines
1123-1128), so the second call is not load-free. -/
theorem setCenter_idem_counterexample :
    (run failState [Ev.setCenterEv 2 false, Ev.fetchErr 2]).fetchLog = [2] ∧
    (run failState
        [Ev.setCenterEv 2 false, Ev.fetchErr 2, Ev.setCenterEv 2 false]).fetchLog
      = [2, 2] := by
  decide

/-- C5 (amended): calling `setCenter` again with the same center page and
unchanged MatchSet is a complete no-op — same HighlightedPages, no
repaint, no load — provided the first call's loads all succeeded, that is:
every highlighted page lies in the window, every window page of the match
set is cached and highlighted, and the prefetch page (if any) of the match
set is cached.  (When a load failed, the second call instead retries that
load, see the counterexample.) -/
theorem setCenter_idem (s : AppState) (pages c : Nat)
    (hdoc : s.currentDoc = some pages)
    (hcen : s.currentCenterPage = some c)
    (hH : ∀ p ∈ s.highlightedPages, windowStart c ≤ p ∧ p ≤ windowEnd pages c)
    (hM : ∀ p ∈ windowRange pages c, p ∈ s.matchPageSet →
      (s.pageCache p).isSome ∧ p ∈ s.highlightedPages)
    (hPre : ∀ p ∈ prefetchRange pages (windowStart c) (windowEnd pages c)
        s.scrollDirection, p ∈ s.matchPageSet → (s.pageCache p).isSome) :
    step s (Ev.setCenterEv c false) = s := by
  show setCenterPage c false s = s
  have hs : ({ s with currentCenterPage := some c } : AppState) = s := by
    rw [← hcen]
  show updateHighlightWindow { s with currentCenterPage := some c } = s
  rw [hs]
  have hclear : clearOutOfWindow (windowStart c) (windowEnd pages c) s = s := by
    refine foldl_fixed _ _ _ ?_
    intro p hp
    have := hH p hp
    rw [if_neg (by omega)]
  have hwin : (windowRange pages c).foldl windowLoopBody s = s := by
    refine foldl_fixed _ _ _ ?_
    intro p hp
    rw [windowLoopBody]
    by_cases hm : p ∈ s.matchPageSet
    · obtain ⟨hc1, hc2⟩ := hM p hp hm
      rw [if_neg (fun hco => hco.2 hc2)]
      have hnone : ¬ ((s.pageCache p).isNone = true ∧ p ∈ s.matchPageSet) := by
        rintro ⟨h1, _⟩
        rw [Option.isNone_iff_eq_none] at h1
        rw [h1] at hc1
        simp at hc1
      rw [if_neg hnone]
    · rw [if_neg (fun hco => hm hco.1), if_neg (fun hco => hm hco.2)]
  have hpre : ∀ dir, dir = s.scrollDirection →
      (prefetchRange pages (windowStart c) (windowEnd pages c) dir).foldl
        prefetchBody s = s := by
    intro dir hdir
    refine foldl_fixed _ _ _ ?_
    intro p hp
    rw [prefetchBody]
    subst hdir
    by_cases hm : p ∈ s.matchPageSet
    · have hsome := hPre p hp hm
      have hnone : ¬ (p ∈ s.matchPageSet ∧ (s.pageCache p).isNone = true) := by
        rintro ⟨_, h1⟩
        rw [Option.isNone_iff_eq_none] at h1
        rw [h1] at hsome
        simp at hsome
      rw [if_neg hnone]
    · rw [if_neg (fun hco => hm hco.1)]
  rw [updateHighlightWindow, hdoc, hcen]
  simp only
  rw [hclear, hwin]
  split
  · exact hpre s.scrollDirection rfl
  · rfl

/-- C5 witness: the 10-page document with match set `{2}`, centered on
page 2 with the load of page 2 settled; the second `setCenter(2)` leaves
the state unchanged. -/
theorem setCenter_idem_witness :
    step (run failState [Ev.setCenterEv 2 false, Ev.fetchOk 2 dLoaded, Ev.imageOk 2])
        (Ev.setCenterEv 2 false)
      = run failState [Ev.setCenterEv 2 false, Ev.fetchOk 2 dLoaded, Ev.imageOk 2] :=
  setCenter_idem _ 10 2 (by decide) (by decide) (by decide) (by decide) (by decide)

/-! ## C2 and C7: load deduplication and failure -/

theorem ensure_create (w : Waiter) (p : Nat) (s : AppState)
    (hc : s.pageCache p = none) (hi : s.inflight p = none)
    (hd : s.currentDoc ≠ none) :
    ensureStart w p s =
      { s with inflight := updf s.inflight p (some Phase.fetching),
               waiters := updf s.waiters p [w],
               fetchLog := s.fetchLog ++ [p] } := by
  rw [ensureStart, if_neg (by simp [hc]), if_neg (by simp [hi]), if_neg hd]

theorem ensure_attach (w : Waiter) (p : Nat) (s : AppState)
    (hc : s.pageCache p = none) (hi : (s.inflight p).isSome = true) :
    ensureStart w p s =
      { s with waiters := updf s.waiters p (s.waiters p ++ [w]) } := by
  rw [ensureStart, if_neg (by simp [hc]), if_pos hi]

theorem fold_plain_true (p : Nat) :
    ∀ (ws : List Waiter) (s0 : AppState), (∀ w ∈ ws, w = Waiter.plain) →
      ws.foldl (fun acc w => runWaiter true p acc w) s0 = s0 := by
  intro ws
  induction ws with
  | nil => intro s0 _; rfl
  | cons w rest ih =>
    intro s0 h
    rw [List.foldl_cons, h w (by simp)]
    exact ih _ (fun x hx => h x (by simp [hx]))

theorem fold_plain_false_eq (p : Nat) :
    ∀ (n : Nat) (s0 : AppState),
      (List.replicate n Waiter.plain).foldl (fun acc w => runWaiter false p acc w) s0
        = { s0 with errorLog := s0.errorLog ++ List.replicate n p } := by
  intro n
  induction n with
  | zero => intro s0; simp
  | succ n ih =>
    intro s0
    rw [List.replicate_succ, List.foldl_cons]
    show (List.replicate n Waiter.plain).foldl _
        { s0 with errorLog := s0.errorLog ++ [p] } = _
    rw [ih]
    simp [List.append_assoc, List.replicate_succ]

theorem applyFetchErr_replicate_plain (p n : Nat) (s : AppState)
    (hws : s.waiters p = List.replicate n Waiter.plain) :
    applyFetchErr p s =
      { s with inflight := updf s.inflight p none,
               waiters := updf s.waiters p [],
               obs := s.obs ++ List.replicate n (p, s.pageCache p),
               errorLog := s.errorLog ++ List.replicate n p } := by
  simp only [applyFetchErr, hws, List.map_replicate]
  rw [fold_plain_false_eq]

theorem run_replicate_attach :
    ∀ (k : Nat) (s : AppState) (p : Nat),
      s.pageCache p = none → s.inflight p = some Phase.fetching →
      (run s (List.replicate k (Ev.callEnsure p))).fetchLog = s.fetchLog ∧
      (run s (List.replicate k (Ev.callEnsure p))).inflight = s.inflight ∧
      (run s (List.replicate k (Ev.callEnsure p))).waiters p
        = s.waiters p ++ List.replicate k Waiter.plain ∧
      (run s (List.replicate k (Ev.callEnsure p))).pageCache = s.pageCache ∧
      (run s (List.replicate k (Ev.callEnsure p))).obs = s.obs ∧
      (run s (List.replicate k (Ev.callEnsure p))).matchPageSet = s.matchPageSet ∧
      (run s (List.replicate k (Ev.callEnsure p))).currentCenterPage
        = s.currentCenterPage ∧
      (run s (List.replicate k (Ev.callEnsure p))).errorLog = s.errorLog := by
  intro k
  induction k with
  | zero =>
    intro s p _ _
    refine ⟨rfl, rfl, ?_, rfl, rfl, rfl, rfl, rfl⟩
    show s.waiters p = s.waiters p ++ List.replicate 0 Waiter.plain
    simp
  | succ k ih =>
    intro s p hc hi
    rw [List.replicate_succ]
    have hstep : step s (Ev.callEnsure p)
        = { s with waiters := updf s.waiters p (s.waiters p ++ [Waiter.plain]) } :=
      ensure_attach Waiter.plain p s hc (by simp [hi])
    have hcons : run s (Ev.callEnsure p :: List.replicate k (Ev.callEnsure p))
        = run { s with waiters := updf s.waiters p (s.waiters p ++ [Waiter.plain]) }
            (List.replicate k (Ev.callEnsure p)) := by
      show run (step s (Ev.callEnsure p)) _ = _
      rw [hstep]
    rw [hcons]
    obtain ⟨h1, h2, h3, h4, h5, h6, h7, h8⟩ := ih
      { s with waiters := updf s.waiters p (s.waiters p ++ [Waiter.plain]) } p hc hi
    refine ⟨h1, h2, ?_, h4, h5, h6, h7, h8⟩
    rw [h3]
    show updf s.waiters p (s.waiters p ++ [Waiter.plain]) p
        ++ List.replicate k Waiter.plain = _
    rw [updf_self, List.append_assoc]
    rfl

/-- C2: for an uncached page with no live ticket, N concurrent
`ensureLoaded(p)` calls issue exactly one network fetch; all of them
attach to the single ticket, and when it settles each observes the same
outcome and the ticket entry is removed: on success every caller observes
the one PageRecord now in the cache, and on failure every caller observes
the same absent record (the shared rejection), each reports it, the cache
stays empty, and the ticket is removed all the same. -/
theorem ensure_dedup (s : AppState) (p pages : Nat) (d : PageData) (N : Nat)
    (hc : s.pageCache p = none) (hi : s.inflight p = none)
    (hd : s.currentDoc = some pages) (hN : 1 ≤ N) :
    (run s (List.replicate N (Ev.callEnsure p))).fetchLog = s.fetchLog ++ [p] ∧
    (run s (List.replicate N (Ev.callEnsure p))).inflight p = some Phase.fetching ∧
    (run (run s (List.replicate N (Ev.callEnsure p)))
        [Ev.fetchOk p d, Ev.imageOk p]).pageCache p = some d ∧
    (run (run s (List.replicate N (Ev.callEnsure p)))
        [Ev.fetchOk p d, Ev.imageOk p]).inflight p = none ∧
    (run (run s (List.replicate N (Ev.callEnsure p)))
        [Ev.fetchOk p d, Ev.imageOk p]).obs
      = s.obs ++ List.replicate N (p, some d) ∧
    (run (run s (List.replicate N (Ev.callEnsure p)))
        [Ev.fetchErr p]).pageCache p = none ∧
    (run (run s (List.replicate N (Ev.callEnsure p)))
        [Ev.fetchErr p]).inflight p = none ∧
    (run (run s (List.replicate N (Ev.callEnsure p)))
        [Ev.fetchErr p]).obs
      = s.obs ++ List.replicate N (p, (none : Option PageData)) ∧
    (run (run s (List.replicate N (Ev.callEnsure p)))
        [Ev.fetchErr p]).errorLog = s.errorLog ++ List.replicate N p := by
  obtain ⟨k, rfl⟩ : ∃ k, N = k + 1 := ⟨N - 1, by omega⟩
  rw [List.replicate_succ]
  have hstep : step s (Ev.callEnsure p)
      = { s with inflight := updf s.inflight p (some Phase.fetching),
                 waiters := updf s.waiters p [Waiter.plain],
                 fetchLog := s.fetchLog ++ [p] } :=
    ensure_create Waiter.plain p s hc hi (by rw [hd]; exact fun h => by cases h)
  set s1 : AppState :=
    { s with inflight := updf s.inflight p (some Phase.fetching),
             waiters := updf s.waiters p [Waiter.plain],
             fetchLog := s.fetchLog ++ [p] } with hs1
  have hrun1 : run s (Ev.callEnsure p :: List.replicate k (Ev.callEnsure p))
      = run s1 (List.replicate k (Ev.callEnsure p)) := by
    show run (step s (Ev.callEnsure p)) _ = _
    rw [hstep]
  rw [hrun1]
  obtain ⟨h1, h2, h3, h4, h5, h6, h7, h8⟩ :=
    run_replicate_attach k s1 p (by simpa using hc) (by simp [hs1, updf_self])
  set s2 : AppState := run s1 (List.replicate k (Ev.callEnsure p)) with hs2
  have hfl : s2.fetchLog = s.fetchLog ++ [p] := h1
  have hinf : s2.inflight p = some Phase.fetching := by
    rw [h2]; simp [hs1, updf_self]
  have hw : s2.waiters p = List.replicate (k + 1) Waiter.plain := by
    rw [h3]
    show updf s.waiters p [Waiter.plain] p ++ _ = _
    rw [updf_self]
    rfl
  have hcache : s2.pageCache p = none := by rw [h4]; simpa using hc
  have hobs2 : s2.obs = s.obs := h5
  have herr2 : s2.errorLog = s.errorLog := h8
  refine ⟨hfl, hinf, ?_⟩
  have hstep2 : step s2 (Ev.fetchOk p d) = applyFetchOk p d s2 := by
    rw [step, if_pos hinf]
  set s3 : AppState := applyFetchOk p d s2 with hs3
  have hinf3 : s3.inflight p = some Phase.imageLoading := by
    simp [hs3, applyFetchOk, updf_self]
  have hstep3 : step s3 (Ev.imageOk p) = applyImageOk p s3 := by
    rw [step, if_pos hinf3]
  have hrun2 : run s2 [Ev.fetchOk p d, Ev.imageOk p] = applyImageOk p s3 := by
    show step (step s2 (Ev.fetchOk p d)) (Ev.imageOk p) = _
    rw [hstep2, hstep3]
  have hrunE : run s2 [Ev.fetchErr p]
      = { s2 with inflight := updf s2.inflight p none,
                  waiters := updf s2.waiters p [],
                  obs := s2.obs ++ List.replicate (k + 1) (p, s2.pageCache p),
                  errorLog := s2.errorLog ++ List.replicate (k + 1) p } := by
    show step s2 (Ev.fetchErr p) = _
    rw [step, if_pos hinf, applyFetchErr_replicate_plain p (k + 1) s2 hw]
  rw [hrun2, applyImageOk]
  set s31 : AppState := { s3 with pageObserver := true } with hs31
  set s32 : AppState :=
    if p ∈ s31.matchPageSet ∧ inRawWindow s31.currentCenterPage p
    then paintAdd p s31 else s31 with hs32
  have hw32 : s32.waiters p = List.replicate (k + 1) Waiter.plain := by
    rw [hs32]
    split
    · show s2.waiters p = _
      exact hw
    · show s2.waiters p = _
      exact hw
  have hcache32 : s32.pageCache p = some d := by
    have hc3 : s3.pageCache p = some d := by simp [hs3, applyFetchOk, updf_self]
    rw [hs32]
    split
    · exact hc3
    · exact hc3
  rw [hw32, hcache32]
  rw [fold_plain_true p _ _ (fun w hw => List.eq_of_mem_replicate hw)]
  refine ⟨?_, ?_, ?_, ?_, ?_, ?_, ?_⟩
  · show s32.pageCache p = some d
    exact hcache32
  · show updf s32.inflight p none p = none
    rw [updf_self]
  · have hobs32 : s32.obs = s.obs := by
      have hobs3 : s3.obs = s.obs := by
        show s2.obs = s.obs
        exact hobs2
      rw [hs32]
      split
      · exact hobs3
      · exact hobs3
    show s32.obs ++ (List.replicate (k + 1) Waiter.plain).map (fun _ => (p, some d))
        = s.obs ++ List.replicate (k + 1) (p, some d)
    rw [hobs32, List.map_replicate]
  · rw [hrunE]
    show s2.pageCache p = none
    exact hcache
  · rw [hrunE]
    show updf s2.inflight p none p = none
    rw [updf_self]
  · rw [hrunE]
    show s2.obs ++ List.replicate (k + 1) (p, s2.pageCache p)
        = s.obs ++ List.replicate (k + 1) (p, (none : Option PageData))
    rw [hobs2, hcache]
  · rw [hrunE]
    show s2.errorLog ++ List.replicate (k + 1) p = s.errorLog ++ List.replicate (k + 1) p
    rw [herr2]

/-- C2 witness: three concurrent calls for page 5 of the concrete
document issue one fetch; on a successful settle all three observe the
record of page 5, and on a failing settle all three observe the same
absent record with the ticket removed. -/
theorem ensure_dedup_witness :
    docState.pageCache 5 = none ∧ docState.inflight 5 = none ∧
    docState.currentDoc = some 10 ∧ 1 ≤ 3 ∧
    (run docState (List.replicate 3 (Ev.callEnsure 5))).fetchLog
      = docState.fetchLog ++ [5] ∧
    (run (run docState (List.replicate 3 (Ev.callEnsure 5)))
        [Ev.fetchOk 5 dLoaded, Ev.imageOk 5]).obs
      = docState.obs ++ List.replicate 3 (5, some dLoaded) ∧
    (run (run docState (List.replicate 3 (Ev.callEnsure 5)))
        [Ev.fetchErr 5]).obs
      = docState.obs ++ List.replicate 3 (5, (none : Option PageData)) ∧
    (run (run docState (List.replicate 3 (Ev.callEnsure 5)))
        [Ev.fetchErr 5]).inflight 5 = none := by
  have h := ensure_dedup docState 5 10 dLoaded 3 (by decide) (by decide)
    (by decide) (by decide)
  exact ⟨by decide, by decide, by decide, by decide, h.1,
    h.2.2.2.2.1, h.2.2.2.2.2.2.2.1, h.2.2.2.2.2.2.1⟩

theorem applyFetchErr_single_plain (p : Nat) (s : AppState)
    (hws : s.waiters p = [Waiter.plain]) :
    applyFetchErr p s =
      { s with inflight := updf s.inflight p none,
               waiters := updf s.waiters p [],
               obs := s.obs ++ [(p, s.pageCache p)],
               errorLog := s.errorLog ++ [p] } := by
  simp only [applyFetchErr, hws]
  rfl

/-- C7: a failing fetch for an uncached page leaves the cache unchanged
(no PageRecord, no render target), removes the live ticket anyway,
reports the failure to the status line, issues no automatic retry, and a
subsequent `ensureLoaded(p)` call performs a fresh network fetch with a
fresh ticket. -/
theorem ensure_failure (s : AppState) (p pages : Nat)
    (hc : s.pageCache p = none) (hi : s.inflight p = none)
    (hd : s.currentDoc = some pages) :
    (∀ q, (run s [Ev.callEnsure p, Ev.fetchErr p]).pageCache q = s.pageCache q) ∧
    (run s [Ev.callEnsure p, Ev.fetchErr p]).inflight p = none ∧
    (run s [Ev.callEnsure p, Ev.fetchErr p]).errorLog = s.errorLog ++ [p] ∧
    (run s [Ev.callEnsure p, Ev.fetchErr p]).fetchLog = s.fetchLog ++ [p] ∧
    (run s [Ev.callEnsure p, Ev.fetchErr p]).domPages = s.domPages ∧
    (run (run s [Ev.callEnsure p, Ev.fetchErr p]) [Ev.callEnsure p]).fetchLog
      = s.fetchLog ++ [p] ++ [p] ∧
    (run (run s [Ev.callEnsure p, Ev.fetchErr p]) [Ev.callEnsure p]).inflight p
      = some Phase.fetching := by
  have hdne : s.currentDoc ≠ none := by rw [hd]; exact fun h => by cases h
  have hstep : step s (Ev.callEnsure p)
      = { s with inflight := updf s.inflight p (some Phase.fetching),
                 waiters := updf s.waiters p [Waiter.plain],
                 fetchLog := s.fetchLog ++ [p] } :=
    ensure_create Waiter.plain p s hc hi hdne
  set s1 : AppState :=
    { s with inflight := updf s.inflight p (some Phase.fetching),
             waiters := updf s.waiters p [Waiter.plain],
             fetchLog := s.fetchLog ++ [p] } with hs1
  have hinf1 : s1.inflight p = some Phase.fetching := by
    show updf s.inflight p (some Phase.fetching) p = _
    rw [updf_self]
  have hstep2 : step s1 (Ev.fetchErr p) = applyFetchErr p s1 := by
    rw [step, if_pos hinf1]
  have hws1 : s1.waiters p = [Waiter.plain] := by
    show updf s.waiters p [Waiter.plain] p = _
    rw [updf_self]
  have hrun : run s [Ev.callEnsure p, Ev.fetchErr p]
      = { s1 with inflight := updf s1.inflight p none,
                  waiters := updf s1.waiters p [],
                  obs := s1.obs ++ [(p, s1.pageCache p)],
                  errorLog := s1.errorLog ++ [p] } := by
    show step (step s (Ev.callEnsure p)) (Ev.fetchErr p) = _
    rw [hstep, hstep2, applyFetchErr_single_plain p s1 hws1]
  rw [hrun]
  set s2 : AppState :=
    { s1 with inflight := updf s1.inflight p none,
              waiters := updf s1.waiters p [],
              obs := s1.obs ++ [(p, s1.pageCache p)],
              errorLog := s1.errorLog ++ [p] } with hs2
  have hc2 : s2.pageCache p = none := hc
  have hi2 : s2.inflight p = none := by
    show updf s1.inflight p none p = _
    rw [updf_self]
  have hstep3 : step s2 (Ev.callEnsure p)
      = { s2 with inflight := updf s2.inflight p (some Phase.fetching),
                  waiters := updf s2.waiters p [Waiter.plain],
                  fetchLog := s2.fetchLog ++ [p] } :=
    ensure_create Waiter.plain p s2 hc2 hi2 hdne
  refine ⟨fun q => rfl, hi2, rfl, rfl, rfl, ?_, ?_⟩
  · show (step s2 (Ev.callEnsure p)).fetchLog = _
    rw [hstep3]
  · show (step s2 (Ev.callEnsure p)).inflight p = _
    rw [hstep3]
    show updf s2.inflight p (some Phase.fetching) p = _
    rw [updf_self]

/-- C7 witness: page 5 of the concrete document, fetch fails once, then a
retry fetch is issued. -/
theorem ensure_failure_witness :
    docState.pageCache 5 = none ∧ docState.inflight 5 = none ∧
    docState.currentDoc = some 10 ∧
    (run docState [Ev.callEnsure 5, Ev.fetchErr 5]).pageCache 5
      = docState.pageCache 5 ∧
    (run docState [Ev.callEnsure 5, Ev.fetchErr 5]).inflight 5 = none ∧
    (run docState [Ev.callEnsure 5, Ev.fetchErr 5]).errorLog
      = docState.errorLog ++ [5] ∧
    (run (run docState [Ev.callEnsure 5, Ev.fetchErr 5]) [Ev.callEnsure 5]).fetchLog
      = docState.fetchLog ++ [5] ++ [5] := by
  have h := ensure_failure docState 5 10 (by decide) (by decide) (by decide)
  exact ⟨by decide, by decide, by decide, h.1 5, h.2.1, h.2.2.1, h.2.2.2.2.2.1⟩

/-! ## C3: jump supersession -/

theorem runWaiter_token (ok : Bool) (p : Nat) (s : AppState) (w : Waiter) :
    (runWaiter ok p s w).currentJumpToken = s.currentJumpToken := by
  cases w <;> rw [runWaiter] <;> split <;> rfl

theorem ensureStart_token (w : Waiter) (p : Nat) (s : AppState) :
    (ensureStart w p s).currentJumpToken = s.currentJumpToken := by
  rw [ensureStart]
  split
  · exact runWaiter_token ..
  · split
    · rfl
    · split
      · exact runWaiter_token ..
      · rfl

theorem updateHighlightWindow_token (s : AppState) :
    (updateHighlightWindow s).currentJumpToken = s.currentJumpToken := by
  unfold updateHighlightWindow
  have hbody : ∀ (a : AppState) (x : Nat),
      (windowLoopBody a x).currentJumpToken = a.currentJumpToken := by
    intro a x
    rw [windowLoopBody]
    split
    · split
      · rfl
      · exact ensureStart_token ..
    · split
      · exact ensureStart_token ..
      · rfl
  have hpre : ∀ (a : AppState) (x : Nat),
      (prefetchBody a x).currentJumpToken = a.currentJumpToken := by
    intro a x
    rw [prefetchBody]
    split
    · exact ensureStart_token ..
    · rfl
  have hclear : ∀ (st en : Nat) (s0 : AppState),
      (clearOutOfWindow st en s0).currentJumpToken = s0.currentJumpToken := by
    intro st en s0
    refine foldl_hom_inv AppState.currentJumpToken _ _ _ ?_
    intro a x
    split <;> rfl
  split
  · split
    · rw [foldl_hom_inv AppState.currentJumpToken _ _ _ hpre,
        foldl_hom_inv AppState.currentJumpToken _ _ _ hbody, hclear]
    · rw [foldl_hom_inv AppState.currentJumpToken _ _ _ hbody, hclear]
  · rfl

theorem setCenterPage_token (p : Nat) (b : Bool) (s : AppState) :
    (setCenterPage p b s).currentJumpToken = s.currentJumpToken := by
  rw [setCenterPage]
  split
  · exact updateHighlightWindow_token _
  · exact updateHighlightWindow_token _

theorem preloadJumpWindow_token (c pages : Nat) (s : AppState) :
    (preloadJumpWindow c pages s).currentJumpToken = s.currentJumpToken := by
  refine foldl_hom_inv AppState.currentJumpToken _ _ _ ?_
  intro a x
  split
  · exact ensureStart_token ..
  · rfl

theorem taskStep_token (k : Nat) (s : AppState) :
    (taskStep k s).currentJumpToken = s.currentJumpToken := by
  unfold taskStep
  split
  · rfl
  · split
    · split
      · rfl
      · split
        · rfl
        · exact preloadJumpWindow_token ..
    · split
      · rfl
      · split
        · split
          · rfl
          · split
            · exact ensureStart_token ..
            · rfl
        · rfl
    · dsimp only
      split
      · exact setCenterPage_token ..
      · rfl

theorem applyImageOk_token (p : Nat) (s : AppState) :
    (applyImageOk p s).currentJumpToken = s.currentJumpToken := by
  simp only [applyImageOk]
  rw [foldl_hom_inv AppState.currentJumpToken _ _ _
    (fun a x => runWaiter_token true p a x)]
  split <;> rfl

theorem applyFetchErr_token (p : Nat) (s : AppState) :
    (applyFetchErr p s).currentJumpToken = s.currentJumpToken := by
  simp only [applyFetchErr]
  rw [foldl_hom_inv AppState.currentJumpToken _ _ _
    (fun a x => runWaiter_token false p a x)]

theorem observeCenter_token (p : Nat) (s : AppState) :
    (observeCenter p s).currentJumpToken = s.currentJumpToken := by
  rw [observeCenter]
  split
  · rfl
  · split
    · rfl
    · cases hc : s.currentCenterPage <;> simp only [hc] <;>
        exact setCenterPage_token ..

/-- State relation: the operation may have started loads, attached
waiters, and logged fetches, but did not touch the center page, the
highlighted set, any overlay, the scroll log, or the cache. -/
def LoadsOnly (s t : AppState) : Prop :=
  t.currentCenterPage = s.currentCenterPage ∧
  t.highlightedPages = s.highlightedPages ∧
  (∀ p, t.overlays p = s.overlays p) ∧
  t.scrollLog = s.scrollLog ∧
  (∀ p, t.pageCache p = s.pageCache p)

theorem loadsOnly_refl (s : AppState) : LoadsOnly s s :=
  ⟨rfl, rfl, fun _ => rfl, rfl, fun _ => rfl⟩

theorem loadsOnly_trans {a b c : AppState} (h1 : LoadsOnly a b)
    (h2 : LoadsOnly b c) : LoadsOnly a c :=
  ⟨h2.1.trans h1.1, h2.2.1.trans h1.2.1,
   fun p => (h2.2.2.1 p).trans (h1.2.2.1 p), h2.2.2.2.1.trans h1.2.2.2.1,
   fun p => (h2.2.2.2.2 p).trans (h1.2.2.2.2 p)⟩

theorem ensureStart_plain_loadsOnly (p : Nat) (s : AppState) :
    LoadsOnly s (ensureStart Waiter.plain p s) := by
  rw [ensureStart]
  split
  · exact loadsOnly_refl s
  · split
    · exact ⟨rfl, rfl, fun _ => rfl, rfl, fun _ => rfl⟩
    · split
      · exact loadsOnly_refl s
      · exact ⟨rfl, rfl, fun _ => rfl, rfl, fun _ => rfl⟩

theorem preloadJumpWindow_loadsOnly (c pages : Nat) (s : AppState) :
    LoadsOnly s (preloadJumpWindow c pages s) := by
  refine foldl_chain_rel LoadsOnly _ _ _ loadsOnly_refl
    (fun a b c h1 h2 => loadsOnly_trans h1 h2) ?_
  intro a x
  split
  · exact ensureStart_plain_loadsOnly ..
  · exact loadsOnly_refl a

/-- C3: the jump counter never decreases, so a task superseded by a newer
jump stays superseded; a pending click task before its token check only
starts loads (no change to centerPage, HighlightedPages, overlays, scroll
log, or cache); and at the token check (line 999) a stale task removes
itself without any of those side effects, without issuing loads, and
leaving every cache entry and ticket in place. -/
theorem jump_supersession :
    (∀ (s : AppState) (e : Ev),
      s.currentJumpToken ≤ (step s e).currentJumpToken) ∧
    (∀ (s : AppState) (k : Nat) (t : JumpTask), s.tasks[k]? = some t →
      t.stage = JStage.awaitTarget → LoadsOnly s (step s (Ev.taskStepEv k))) ∧
    (∀ (s : AppState) (k : Nat) (t : JumpTask), s.tasks[k]? = some t →
      t.stage = JStage.awaitPreload → t.token ≠ s.currentJumpToken →
      LoadsOnly s (step s (Ev.taskStepEv k)) ∧
      (step s (Ev.taskStepEv k)).fetchLog = s.fetchLog ∧
      (∀ p, (step s (Ev.taskStepEv k)).inflight p = s.inflight p)) := by
  refine ⟨?_, ?_, ?_⟩
  · intro s e
    cases e with
    | callEnsure p => exact le_of_eq (ensureStart_token ..).symm
    | fetchOk p d =>
      show s.currentJumpToken ≤ (if s.inflight p = some Phase.fetching
        then applyFetchOk p d s else s).currentJumpToken
      split
      · exact Nat.le.refl
      · exact Nat.le.refl
    | fetchErr p =>
      show s.currentJumpToken ≤ (if s.inflight p = some Phase.fetching
        then applyFetchErr p s else s).currentJumpToken
      split
      · exact le_of_eq (applyFetchErr_token ..).symm
      · exact Nat.le.refl
    | imageOk p =>
      show s.currentJumpToken ≤ (if s.inflight p = some Phase.imageLoading
        then applyImageOk p s else s).currentJumpToken
      split
      · exact le_of_eq (applyImageOk_token ..).symm
      · exact Nat.le.refl
    | setCenterEv p b => exact le_of_eq (setCenterPage_token ..).symm
    | observeCenterEv p => exact le_of_eq (observeCenter_token ..).symm
    | resultClickEv i =>
      show s.currentJumpToken ≤ (resultClick i s).currentJumpToken
      rw [resultClick]
      cases hr : s.searchResults[i]? with
      | none => exact Nat.le.refl
      | some pg =>
        show s.currentJumpToken ≤ (ensureStart Waiter.plain pg
          { s with currentJumpToken := s.currentJumpToken + 1 }).currentJumpToken
        rw [ensureStart_token]
        exact Nat.le_succ _
    | taskStepEv k => exact le_of_eq (taskStep_token ..).symm
    | settleTimer => exact Nat.le.refl
    | resetEv => exact Nat.le.refl
  · intro s k t ht hst
    show LoadsOnly s (taskStep k s)
    unfold taskStep
    rw [ht]
    dsimp only
    rw [hst]
    dsimp only
    split
    · exact loadsOnly_refl s
    · cases hdoc : s.currentDoc with
      | none => exact ⟨rfl, rfl, fun _ => rfl, rfl, fun _ => rfl⟩
      | some pages =>
        refine loadsOnly_trans (preloadJumpWindow_loadsOnly t.page pages s) ?_
        exact ⟨rfl, rfl, fun _ => rfl, rfl, fun _ => rfl⟩
  · intro s k t ht hst hne
    show LoadsOnly s (taskStep k s) ∧ (taskStep k s).fetchLog = s.fetchLog ∧
      ∀ p, (taskStep k s).inflight p = s.inflight p
    unfold taskStep
    rw [ht]
    dsimp only
    rw [hst]
    dsimp only
    cases hdoc : s.currentDoc with
    | none =>
      exact ⟨⟨rfl, rfl, fun _ => rfl, rfl, fun _ => rfl⟩, rfl, fun _ => rfl⟩
    | some pages =>
      dsimp only
      split
      · exact ⟨⟨rfl, rfl, fun _ => rfl, rfl, fun _ => rfl⟩, rfl, fun _ => rfl⟩
      · exact ⟨loadsOnly_refl s, rfl, fun _ => rfl⟩

/-- A state with two pending click tasks whose captured token 1 has been
superseded by a newer jump (counter at 2). -/
def staleState : AppState :=
  { docState with
      tasks := [⟨1, 0, 2, JStage.awaitTarget⟩, ⟨1, 1, 4, JStage.awaitPreload⟩],
      currentJumpToken := 2 }

/-- C3 witness: concrete superseded tasks neither alter the center, the
highlighted set, nor the fetch log when they resume. -/
theorem jump_supersession_witness :
    staleState.currentJumpToken ≤ (step staleState Ev.settleTimer).currentJumpToken ∧
    (step staleState (Ev.taskStepEv 0)).highlightedPages
      = staleState.highlightedPages ∧
    (step staleState (Ev.taskStepEv 1)).currentCenterPage
      = staleState.currentCenterPage ∧
    (step staleState (Ev.taskStepEv 1)).fetchLog = staleState.fetchLog := by
  have h1 := jump_supersession.1 staleState Ev.settleTimer
  have h2 := jump_supersession.2.1 staleState 0 ⟨1, 0, 2, JStage.awaitTarget⟩
    (by decide) rfl
  have h3 := jump_supersession.2.2 staleState 1 ⟨1, 1, 4, JStage.awaitPreload⟩
    (by decide) rfl (by decide)
  exact ⟨h1, h2.2.1, h3.1.1, h3.2.1⟩

/-! ## C10: resetAll -/

/-- C10: after `resetAll` the cache, match set, highlighted set, center,
document, selection, results, and words are cleared, the zoom scale is
back to 1.0 and the observer disconnected — but the in-flight load-ticket
map is untouched: a live ticket survives the reset and is removed only
when its own settling event arrives. -/
theorem resetAll_spec (s : AppState) (p : Nat) :
    ((resetAll s).currentDoc = none ∧
     (resetAll s).currentWords = [] ∧
     (resetAll s).searchResults = [] ∧
     (resetAll s).currentSelectedPage = none ∧
     (resetAll s).pageCache p = none ∧
     (resetAll s).matchPageSet = [] ∧
     (resetAll s).highlightedPages = [] ∧
     (resetAll s).currentCenterPage = none ∧
     (resetAll s).currentScale = 1 ∧
     (resetAll s).pageObserver = false ∧
     (resetAll s).domPages = [] ∧
     (resetAll s).overlays p = [] ∧
     (resetAll s).inflight p = s.inflight p ∧
     (resetAll s).waiters p = s.waiters p) ∧
    ((resetAll s).inflight p = some Phase.fetching →
      (step (resetAll s) (Ev.fetchErr p)).inflight p = none) ∧
    ((resetAll s).inflight p = some Phase.imageLoading →
      (step (resetAll s) (Ev.imageOk p)).inflight p = none) := by
  refine ⟨⟨rfl, rfl, rfl, rfl, rfl, rfl, rfl, rfl, rfl, rfl, rfl, rfl, rfl, rfl⟩,
    ?_, ?_⟩
  · intro hf
    rw [step, if_pos hf]
    simp only [applyFetchErr]
    have hfold : ∀ (ws : List Waiter) (s0 : AppState),
        s0.inflight p = none →
        ((ws.foldl (fun acc w => runWaiter false p acc w) s0).inflight p) = none := by
      intro ws
      induction ws with
      | nil => intro s0 h; exact h
      | cons w rest ih =>
        intro s0 h
        rw [List.foldl_cons]
        refine ih _ ?_
        cases w <;> rw [runWaiter]
        · split <;> exact h
        · split <;> exact h
    refine hfold _ _ ?_
    show updf (resetAll s).inflight p none p = none
    rw [updf_self]
  · intro hf
    rw [step, if_pos hf]
    simp only [applyImageOk]
    have hfold : ∀ (ws : List Waiter) (s0 : AppState),
        s0.inflight p = none →
        ((ws.foldl (fun acc w => runWaiter true p acc w) s0).inflight p) = none := by
      intro ws
      induction ws with
      | nil => intro s0 h; exact h
      | cons w rest ih =>
        intro s0 h
        rw [List.foldl_cons]
        refine ih _ ?_
        cases w <;> rw [runWaiter]
        · split <;> exact h
        · split <;> exact h
    refine hfold _ _ ?_
    split
    · show updf (paintAdd p _).inflight p none p = none
      rw [updf_self]
    · show updf _ p none p = none
      rw [updf_self]

/-- A state with a live ticket for page 1. -/
def tktState : AppState :=
  { docState with inflight := updf docState.inflight 1 (some Phase.fetching) }

/-- C10 witness: the ticket for page 1 survives `resetAll` and is removed
when its failing settle arrives. -/
theorem resetAll_spec_witness :
    (resetAll tktState).pageCache 1 = none ∧
    (resetAll tktState).inflight 1 = tktState.inflight 1 ∧
    (resetAll tktState).inflight 1 = some Phase.fetching ∧
    (step (resetAll tktState) (Ev.fetchErr 1)).inflight 1 = none := by
  have h := resetAll_spec tktState 1
  exact ⟨h.1.2.2.2.2.1, h.1.2.2.2.2.2.2.2.2.2.2.2.2.1, by decide,
    h.2.1 (by decide)⟩
